import Mathlib

/-! Verification of `cmd/migrate.go`.

A shallow embedding of the one-shot migration command `main` of
`src/cmd/migrate.go`: the file-name matcher (the regular expression and
`FindAllStringSubmatch`), the address handling done through Go's `net`
package, and the per-file loop with its `continue` / `os.Exit` / run-time
panic control flow.  Strings are lists of characters; byte slices are lists
of naturals.
-/

set_option linter.dupNamespace false

namespace Migrate

/-- A Go string. -/
abbrev Str := List Char

/-! ## The artifact matcher: `sriov-public[a-z0-9-]*-net-([a-z0-9]+)-net[12]`

The pattern is embedded with backtracking combinators in continuation
passing style, one combinator per construct of the pattern.  A greedy
repetition tries the longer alternative first, which is the leftmost-first
preference order Go's `regexp` package implements. -/

/-- Character class `[a-z0-9]`. -/
def isAlnum (c : Char) : Bool :=
  (decide ('a' ≤ c) && decide (c ≤ 'z')) || (decide ('0' ≤ c) && decide (c ≤ '9'))

/-- Character class `[a-z0-9-]`. -/
def isVar (c : Char) : Bool :=
  isAlnum c || c == '-'

/-- Character class `[12]`. -/
def isSlot (c : Char) : Bool :=
  c == '1' || c == '2'

/-- Literal: consume the pattern text `p`, then continue with `k`. -/
def lit {α : Type} : Str → (Str → Option α) → Str → Option α
  | [], k, s => k s
  | _ :: _, _, [] => none
  | p :: ps, k, c :: s => if c = p then lit ps k s else none

/-- One character of class `cls`, then continue with `k`. -/
def one {α : Type} (cls : Char → Bool) (k : Str → Option α) : Str → Option α
  | [] => none
  | c :: s => if cls c then k s else none

/-- Greedy `cls*`: `acc` is the text consumed so far by the repetition; the
continuation receives the consumed text and the remaining input.  One more
character is tried before stopping. -/
def star {α : Type} (cls : Char → Bool) (k : Str → Str → Option α) : Str → Str → Option α
  | acc, [] => k acc []
  | acc, c :: s =>
    if cls c then
      match star cls k (acc ++ [c]) s with
      | some r => some r
      | none => k acc (c :: s)
    else k acc (c :: s)

/-- Greedy `cls+`: one character of the class followed by `cls*`. -/
def plus {α : Type} (cls : Char → Bool) (k : Str → Str → Option α) : Str → Option α
  | [] => none
  | c :: s => if cls c then star cls k [c] s else none

/-- Tail of the pattern after the capture group: `-net[12]`; yields the
capture and the input left after the match. -/
def afterGroup (cap : Str) : Str → Option (Str × Str) :=
  lit "-net".toList (one isSlot (fun rest => some (cap, rest)))

/-- Tail of the pattern after the variable segment: `-net-([a-z0-9]+)-net[12]`. -/
def afterVar : Str → Option (Str × Str) :=
  lit "-net-".toList (plus isAlnum afterGroup)

/-- The whole pattern tried at the current position. -/
def matchHere : Str → Option (Str × Str) :=
  lit "sriov-public".toList (star isVar (fun _ rest => afterVar rest) [])

/-- Leftmost match: the first start position at which the pattern matches.
Returns the text of the whole match, the capture group and the input left
after the match. -/
def findFirst : Str → Option (Str × Str × Str)
  | [] => none
  | c :: s =>
    match matchHere (c :: s) with
    | some (cap, rest) => some ((c :: s).take ((c :: s).length - rest.length), cap, rest)
    | none => findFirst s

/-- Successive non-overlapping matches, searching again after the end of the
previous match (no match of this pattern is empty).  `fuel` bounds the
number of matches. -/
def findAllFrom : Nat → Str → List (List Str)
  | 0, _ => []
  | fuel + 1, s =>
    match findFirst s with
    | none => []
    | some (full, cap, rest) => [full, cap] :: findAllFrom fuel rest

/-- Model of `r.FindAllStringSubmatch(name, -1)`: at most `len(name)+1` matches. -/
def FindAllStringSubmatch (name : Str) : List (List Str) :=
  findAllFrom (name.length + 1) name

/-! ## Go's `net` package: addresses, masks, text forms -/

/-- Go `net.IP`: a byte slice (`nil` is the empty list). -/
abbrev IP := List Nat

/-- Go `net.IPMask`. -/
abbrev IPMask := List Nat

/-- Go `net.IPNet`. -/
structure IPNet where
  IP : IP
  Mask : IPMask
deriving DecidableEq

/-- The IPv6 text routines of `net`, which this development does not
interpret: `parseIPv6` and the IPv6 branch of `IP.String`.  Every result
below holds for any behaviour of the two. -/
structure NetText where
  parseIPv6 : Str → Option IP
  ipv6String : IP → Str

/-- Prefix of an IPv4 address stored in 16 bytes (`v4InV6Prefix`). -/
def v4InV6Prefix : List Nat := [0, 0, 0, 0, 0, 0, 0, 0, 0, 0, 0xff, 0xff]

/-- Go `net.IPv4(a, b, c, d)`: the 16-byte form. -/
def IPv4 (a b c d : Nat) : IP := v4InV6Prefix ++ [a, b, c, d]

/-- Go `isZeros`. -/
def isZeros (p : List Nat) : Bool := p.all (fun b => b == 0)

/-- Go `allFF`. -/
def allFF (p : List Nat) : Bool := p.all (fun b => b == 0xff)

/-- Go `IP.To4`; `nil` is `[]`. -/
def To4 (ip : IP) : IP :=
  if ip.length = 4 then ip
  else if ip.length = 16 ∧ isZeros (ip.take 10) ∧ ip.getD 10 0 = 0xff ∧ ip.getD 11 0 = 0xff then
    ip.drop 12
  else []

/-- Go `CIDRMask(ones, bits)`, the loop over the `l` mask bytes with `n` ones left. -/
def cidrMaskBytes : Nat → Nat → List Nat
  | 0, _ => []
  | l + 1, n =>
    if n ≥ 8 then 0xff :: cidrMaskBytes l (n - 8)
    else (0xff - (0xff >>> n)) :: cidrMaskBytes l 0

/-- Go `net.CIDRMask`; `nil` is `[]`. -/
def CIDRMask (ones bits : Nat) : IPMask :=
  if bits ≠ 32 ∧ bits ≠ 128 then []
  else if ones > bits then []
  else cidrMaskBytes (bits / 8) ones

/-- Go `IP.Mask`; `nil` is `[]`. -/
def IP.Mask (ip : IP) (mask : IPMask) : IP :=
  let mask := if mask.length = 16 ∧ ip.length = 4 ∧ allFF (mask.take 12) then mask.drop 12 else mask
  let ip := if mask.length = 4 ∧ ip.length = 16 ∧ ip.take 12 = v4InV6Prefix then ip.drop 12 else ip
  if ip.length ≠ mask.length then []
  else List.zipWith (fun b m => b &&& m) ip mask

/-- Decimal digit character of a number below ten. -/
def digitChar (n : Nat) : Char := Char.ofNat (48 + n)

/-- Loop of Go `uitoa`: peel decimal digits off `val` from the right. -/
def uitoaLoop : Nat → Nat → Str → Str
  | 0, val, acc => digitChar (val % 10) :: acc
  | fuel + 1, val, acc =>
    if val ≥ 10 then uitoaLoop fuel (val / 10) (digitChar (val % 10) :: acc)
    else digitChar val :: acc

/-- Go `uitoa`: decimal text of an unsigned integer (buffer of 20 digits). -/
def uitoa (val : Nat) : Str :=
  if val = 0 then ['0'] else uitoaLoop 19 val []

/-- Go `hexDigit`. -/
def hexDigit : Str := "0123456789abcdef".toList

/-- Go `hexString`. -/
def hexString : List Nat → Str
  | [] => []
  | b :: bs => hexDigit.getD (b >>> 4) '?' :: hexDigit.getD (b &&& 0xf) '?' :: hexString bs

/-- Go `IP.String`. -/
def IP.String (nt : NetText) (ip : IP) : Str :=
  if ip.length = 0 then "<nil>".toList
  else
    let p4 := To4 ip
    if p4.length = 4 then
      uitoa (p4.getD 0 0) ++ '.' :: uitoa (p4.getD 1 0) ++ '.' :: uitoa (p4.getD 2 0)
        ++ '.' :: uitoa (p4.getD 3 0)
    else if ip.length ≠ 16 then '?' :: hexString ip
    else nt.ipv6String ip

/-- Go `IPMask.String`. -/
def IPMask.String (m : IPMask) : Str :=
  if m.length = 0 then "<nil>".toList else hexString m

/-- Inner loop of Go `simpleMaskLength` on the first byte that is not `0xff`:
count the leading one bits of `v` (at most eight shifts of a byte). -/
def leadingOnes : Nat → Nat → Nat × Nat
  | 0, v => (0, v)
  | fuel + 1, v =>
    if v &&& 0x80 ≠ 0 then
      let r := leadingOnes fuel ((v <<< 1) % 256)
      (r.1 + 1, r.2)
    else (0, v)

/-- Go `simpleMaskLength`; `none` is `-1`. -/
def simpleMaskLength : IPMask → Option Nat
  | [] => some 0
  | v :: rest =>
    if v = 0xff then (simpleMaskLength rest).map (fun n => n + 8)
    else
      let r := leadingOnes 8 v
      if r.2 ≠ 0 then none
      else if rest.all (fun b => b == 0) then some r.1 else none

/-- Go `networkNumberAndMask`; `none` is `(nil, nil)`. -/
def networkNumberAndMask (n : IPNet) : Option (IP × IPMask) :=
  let ip4 := To4 n.IP
  let ip? : Option IP :=
    if ip4.length ≠ 0 then some ip4
    else if n.IP.length ≠ 16 then none else some n.IP
  match ip? with
  | none => none
  | some ip =>
    if n.Mask.length = 4 then
      if ip.length ≠ 4 then none else some (ip, n.Mask)
    else if n.Mask.length = 16 then
      if ip.length = 4 then some (ip, n.Mask.drop 12) else some (ip, n.Mask)
    else none

/-- Go `IPNet.String`. -/
def IPNet.String (nt : NetText) (n : IPNet) : Str :=
  match networkNumberAndMask n with
  | none => "<nil>".toList
  | some (nn, m) =>
    if nn.length = 0 ∨ m.length = 0 then "<nil>".toList
    else
      match simpleMaskLength m with
      | none => IP.String nt nn ++ '/' :: IPMask.String m
      | some l => IP.String nt nn ++ '/' :: uitoa l

/-- Go `big`, the bound of `dtoi`. -/
def big : Nat := 0xFFFFFF

/-- Loop of Go `dtoi`: `n` is the value so far, `i` the number of digits read. -/
def dtoiLoop : Str → Nat → Nat → Nat × Nat × Bool
  | [], n, i => if i = 0 then (0, 0, false) else (n, i, true)
  | c :: s, n, i =>
    if '0' ≤ c ∧ c ≤ '9' then
      let n1 := n * 10 + (c.toNat - '0'.toNat)
      if n1 ≥ big then (big, i, false) else dtoiLoop s n1 (i + 1)
    else if i = 0 then (0, 0, false) else (n, i, true)

/-- Go `dtoi`: decimal to integer; returns the number, the characters
consumed and a success flag. -/
def dtoi (s : Str) : Nat × Nat × Bool := dtoiLoop s 0 0

/-- One round of the loop of Go `parseIPv4`: an octet, preceded by a dot
unless it is the first.  (Later Go releases also reject an octet written with
a leading zero; `uitoa` writes none, so the texts `main` parses are read the
same way.) -/
def parseOctet (first : Bool) (s : Str) : Option (Nat × Str) :=
  match s with
  | [] => none
  | c :: t =>
    let s1? : Option Str := if first then some (c :: t) else if c ≠ '.' then none else some t
    match s1? with
    | none => none
    | some s1 =>
      let r := dtoi s1
      if !r.2.2 ∨ r.1 > 0xFF then none else some (r.1, s1.drop r.2.1)

/-- Go `parseIPv4`; `none` is `nil`. -/
def parseIPv4 (s : Str) : Option IP :=
  match parseOctet true s with
  | none => none
  | some (a, s) =>
    match parseOctet false s with
    | none => none
    | some (b, s) =>
      match parseOctet false s with
      | none => none
      | some (c, s) =>
        match parseOctet false s with
        | none => none
        | some (d, s) => if s.length ≠ 0 then none else some (IPv4 a b c d)

/-- Go `net.ParseIP`: the first `.` or `:` selects the parser; `none` is `nil`. -/
def ParseIPFrom (nt : NetText) (whole : Str) : Str → Option IP
  | [] => none
  | c :: s =>
    if c = '.' then parseIPv4 whole
    else if c = ':' then nt.parseIPv6 whole
    else ParseIPFrom nt whole s

/-- Go `net.ParseIP`. -/
def ParseIP (nt : NetText) (s : Str) : Option IP := ParseIPFrom nt s s

/-- Split at the first `/` (`IndexByteString(s, '/')`, then `s[:i]`, `s[i+1:]`). -/
def splitSlash : Str → Option (Str × Str)
  | [] => none
  | c :: s =>
    if c = '/' then some ([], s)
    else (splitSlash s).map (fun p => (c :: p.1, p.2))

/-- Go `net.ParseCIDR`; `none` is the `ParseError` result. -/
def ParseCIDR (nt : NetText) (s : Str) : Option (IP × IPNet) :=
  match splitSlash s with
  | none => none
  | some (addr, mask) =>
    let p : Nat × Option IP :=
      match parseIPv4 addr with
      | some ip => (4, some ip)
      | none => (16, nt.parseIPv6 addr)
    let r := dtoi mask
    match p.2 with
    | none => none
    | some ip =>
      if !r.2.2 ∨ r.2.1 ≠ mask.length ∨ r.1 > 8 * p.1 then none
      else
        let m := CIDRMask r.1 (8 * p.1)
        some (ip, { IP := IP.Mask ip m, Mask := m })

/-! ## Errors, decoded results, the allocator configuration -/

/-- Error numbers a path error can wrap. -/
inductive Errno
  | ENOENT
  | EACCES
  | ENOTDIR
  | EIO
deriving DecidableEq

/-- Go `error` values as far as `main` tells them apart.  `ErrNotExist` is
the sentinel variable `os.ErrNotExist`; `PathError` is a `*os.PathError`, the
error type `ioutil.ReadDir` and `ioutil.ReadFile` report; `other` is any other
error.  Equality is Go's interface equality: same dynamic type and value. -/
inductive GoError
  | ErrNotExist
  | PathError (op : Str) (path : Str) (err : Errno)
  | other (msg : Str)
deriving DecidableEq

/-- The `IPConfig` of `cnitypes`: version, address, gateway. -/
structure IPConfig where
  Version : Str
  Address : IPNet
  Gateway : IP
deriving DecidableEq

/-- The `Result` of `cnitypes`, as far as `main` reads it: `IPs` is a slice of
pointers, `none` being a nil pointer (a JSON `null` element). -/
structure Result where
  CNIVersion : Str
  IPs : List (Option IPConfig)
deriving DecidableEq

/-- The operation selector passed to `storage.IPManagement`. -/
inductive Action
  | Allocate
  | Deallocate
  | Reserve
deriving DecidableEq

/-- The datastore selector of the allocator configuration. -/
inductive Datastore
  | ETCD
  | Kubernetes
deriving DecidableEq

/-- Entry of the `Addresses` list of the allocator configuration. -/
structure Address where
  AddressStr : Str
  Address : IPNet
deriving DecidableEq

/-- Backend settings of the allocator configuration. -/
structure KubernetesConfig where
  KubeConfigPath : Str
deriving DecidableEq

/-- The fields of `whereaboutstypes.IPAMConfig` that `main` sets; the others
keep their zero value. -/
structure IPAMConfig where
  Range : Str
  RangeStart : IP
  RangeEnd : IP
  Addresses : List Address
  Datastore : Datastore
  Kubernetes : KubernetesConfig
deriving DecidableEq

/-! ## The environment of a run -/

/-- Pure code outside `migrate.go`: the uninterpreted IPv6 text routines,
`json.Unmarshal` into a `cnitypes.Result`, and `allocate.GetIPRange`. -/
structure Lib where
  net : NetText
  Unmarshal : Str → Except GoError Result
  GetIPRange : IP → IPNet → Except GoError (IP × IP)

/-- The process environment and the file system a run sees. -/
structure World where
  resultsDir : Str
  kubeconfig : Str
  ReadDir : Str → Except GoError (List Str)
  ReadFile : Str → Except GoError Str

/-- The external allocation store: `storage.IPManagement` acts on a store
state of type `σ`; `none` is success, `some e` its error. -/
structure Store (σ : Type) where
  IPManagement : σ → Action → IPAMConfig → Str → σ × Option GoError

/-- Calls that leave the process, in the order made. -/
inductive Event
  | readFile (path : Str)
  | getIPRange (ip : IP) (net : IPNet)
  | ipManagement (action : Action) (cfg : IPAMConfig) (containerID : Str)
deriving DecidableEq

/-- How the process ends: falling off `main` (status 0), `os.Exit(1)`, or a
Go run-time panic (status 2). -/
inductive Exit
  | ok
  | fatal
  | panic
deriving DecidableEq

/-- Exit status of the process. -/
def Exit.code : Exit → Nat
  | .ok => 0
  | .fatal => 1
  | .panic => 2

/-- Outcome of one round of the loop: the calls made, the store afterwards,
and whether the round panicked (otherwise the loop goes on). -/
structure Step (σ : Type) where
  events : List Event
  store : σ
  panicked : Bool

/-- Outcome of a run. -/
structure Run (σ : Type) where
  events : List Event
  store : σ
  exit : Exit

/-- The file reads of a trace. -/
def reads : List Event → List Str
  | [] => []
  | .readFile p :: es => p :: reads es
  | _ :: es => reads es

/-- The reservation calls of a trace: action, configuration, owner. -/
def calls : List Event → List (Action × IPAMConfig × Str)
  | [] => []
  | .ipManagement a c o :: es => (a, c, o) :: calls es
  | _ :: es => calls es

/-- The boundary-function calls of a trace. -/
def bounds : List Event → List (IP × IPNet)
  | [] => []
  | .getIPRange ip n :: es => (ip, n) :: bounds es
  | _ :: es => bounds es

/-! ## `main` -/

/-- Body of the `for` loop of `main` for one directory entry (lines 33-114). -/
def iteration {σ : Type} (lib : Lib) (w : World) (st : Store σ) (s : σ) (name : Str) : Step σ :=
  let submatches := FindAllStringSubmatch name
  if submatches.length = 0 ∨ (submatches.headD []).length < 2 then
    ⟨[], s, false⟩
  else
    let containerID := (submatches.headD []).getD 1 []
    let path := w.resultsDir ++ '/' :: name
    match w.ReadFile path with
    | .error _ => ⟨[.readFile path], s, false⟩
    | .ok contents =>
      match lib.Unmarshal contents with
      | .error _ => ⟨[.readFile path], s, false⟩
      | .ok ipamResults =>
        match ipamResults.IPs with
        | [] => ⟨[.readFile path], s, true⟩
        | none :: _ => ⟨[.readFile path], s, true⟩
        | some ipc :: _ =>
          let addressToReserve := IPNet.String lib.net ipc.Address
          match ParseCIDR lib.net addressToReserve with
          | none => ⟨[.readFile path], s, false⟩
          | some (reserveIP, reserveCIDR) =>
            let networkAddress := (ParseIP lib.net (IP.String lib.net reserveCIDR.IP)).getD []
            match lib.GetIPRange networkAddress reserveCIDR with
            | .error _ => ⟨[.readFile path, .getIPRange networkAddress reserveCIDR], s, false⟩
            | .ok (firstIP, lastIP) =>
              let ipamConfig : IPAMConfig :=
                { Range := IPNet.String lib.net reserveCIDR
                  RangeStart := firstIP
                  RangeEnd := lastIP
                  Addresses :=
                    [{ AddressStr := IP.String lib.net reserveIP
                       Address := { IP := reserveIP, Mask := reserveCIDR.Mask } }]
                  Datastore := .Kubernetes
                  Kubernetes := { KubeConfigPath := w.kubeconfig } }
              let r := st.IPManagement s .Reserve ipamConfig containerID
              ⟨[.readFile path, .getIPRange networkAddress reserveCIDR,
                .ipManagement .Reserve ipamConfig containerID], r.1, false⟩

/-- The `for _, file := range files` loop of `main`. -/
def loop {σ : Type} (lib : Lib) (w : World) (st : Store σ) : σ → List Str → Run σ
  | s, [] => ⟨[], s, .ok⟩
  | s, file :: files =>
    let step := iteration lib w st s file
    if step.panicked then ⟨step.events, step.store, .panic⟩
    else
      let r := loop lib w st step.store files
      ⟨step.events ++ r.events, r.store, r.exit⟩

/-- The command `main`: list the directory, exit with status 1 when the
listing failed with an error other than the value `os.ErrNotExist`, else run
the loop over the listed names (none when the listing failed). -/
def main {σ : Type} (lib : Lib) (w : World) (st : Store σ) (s : σ) : Run σ :=
  match w.ReadDir w.resultsDir with
  | .error err =>
    if err ≠ GoError.ErrNotExist then ⟨[], s, .fatal⟩
    else loop lib w st s []
  | .ok files => loop lib w st s files

/-- The world `w` with the directory listing replaced by `files`. -/
def World.withListing (w : World) (files : List Str) : World :=
  { w with ReadDir := fun _ => .ok files }

/-! ## Sample inputs -/

/-- File content with one assigned address, `24.51.17.125/29`. -/
def goodJSON : Str :=
  "\x7b\"cniVersion\":\"0.4.0\",\"ips\":[\x7b\"version\":\"4\",\"address\":\"24.51.17.125/29\",\"gateway\":\"24.51.17.121\"\x7d],\"dns\":\x7b\x7d\x7d".toList

/-- File content whose `ips` sequence is empty. -/
def emptyIPsJSON : Str := "\x7b\"cniVersion\":\"0.4.0\",\"ips\":[]\x7d".toList

/-- File content whose `ips` sequence holds a `null`. -/
def nullIPJSON : Str := "\x7b\"cniVersion\":\"0.4.0\",\"ips\":[null]\x7d".toList

/-- A library for the sample runs: the decoder knows the three sample
contents and rejects everything else; the boundary function returns the
base address twice. -/
def sampleLib : Lib where
  net := { parseIPv6 := fun _ => none, ipv6String := fun _ => [] }
  Unmarshal := fun c =>
    if c = goodJSON then
      .ok { CNIVersion := "0.4.0".toList
            IPs := [some { Version := "4".toList
                           Address := { IP := IPv4 24 51 17 125, Mask := CIDRMask 29 32 }
                           Gateway := IPv4 24 51 17 121 }] }
    else if c = emptyIPsJSON then .ok { CNIVersion := "0.4.0".toList, IPs := [] }
    else if c = nullIPJSON then .ok { CNIVersion := "0.4.0".toList, IPs := [none] }
    else .error (.other "invalid character".toList)
  GetIPRange := fun ip _ => .ok (ip, ip)

/-- A store that counts the calls it receives and accepts each of them. -/
def countingStore : Store Nat where
  IPManagement := fun n _ _ _ => (n + 1, none)

/-- A store that rejects every call. -/
def failingStore : Store Nat where
  IPManagement := fun n _ _ _ => (n, some (.other "store unavailable".toList))

/-- A run whose results directory does not exist: the listing fails with the
path error of a missing directory. -/
def missingDirWorld : World where
  resultsDir := "/var/lib/cni/results".toList
  kubeconfig := "/etc/kube/config".toList
  ReadDir := fun d => .error (.PathError "open".toList d .ENOENT)
  ReadFile := fun p => .error (.PathError "open".toList p .ENOENT)

/-- A results directory given as a list of named files with their content. -/
def dirWorld (files : List (Str × Str)) : World where
  resultsDir := "/r".toList
  kubeconfig := "/etc/kube/config".toList
  ReadDir := fun _ => .ok (files.map Prod.fst)
  ReadFile := fun p =>
    match files.find? (fun f => "/r/".toList ++ f.1 == p) with
    | some f => .ok f.2
    | none => .error (.PathError "open".toList p .ENOENT)

/-- The request the sample artifact `24.51.17.125/29` leads to, for owner `id`. -/
def sampleRequest (id : Str) : Action × IPAMConfig × Str :=
  (.Reserve,
   { Range := "24.51.17.120/29".toList
     RangeStart := IPv4 24 51 17 120
     RangeEnd := IPv4 24 51 17 120
     Addresses := [{ AddressStr := "24.51.17.125".toList
                     Address := { IP := IPv4 24 51 17 125, Mask := [255, 255, 255, 248] } }]
     Datastore := .Kubernetes
     Kubernetes := { KubeConfigPath := "/etc/kube/config".toList } },
   id)

/-! ## Predicates used in the statements -/

/-- A round does not panic when the decoded result, if the round gets that
far (the name matches, the file is read and decoded), starts with a non-nil
entry. -/
def roundSafe (lib : Lib) (w : World) (name : Str) : Prop :=
  FindAllStringSubmatch name ≠ [] →
    ∀ contents res, w.ReadFile (w.resultsDir ++ '/' :: name) = .ok contents →
      lib.Unmarshal contents = .ok res → ∃ ipc rest, res.IPs = some ipc :: rest

/-- What a reservation call of one round looks like. -/
def requestInRange (nt : NetText) (events : List Event) (call : Action × IPAMConfig × Str) : Prop :=
  ∃ (e : Address) (n : IPNet),
    call.2.1.Addresses = [e] ∧
    call.2.1.Range = IPNet.String nt n ∧
    e.Address.Mask = n.Mask ∧
    IP.Mask e.Address.IP e.Address.Mask = n.IP ∧
    ((ParseIP nt (IP.String nt n.IP)).getD [], n) ∈ bounds events

/-- The naming convention: variable segment over `[a-z0-9-]`, identifier
non-empty over `[a-z0-9]`, slot digit `1` or `2`. -/
def ArtifactForm (v id : Str) (d : Char) : Prop :=
  (∀ c ∈ v, isVar c = true) ∧ id ≠ [] ∧ (∀ c ∈ id, isAlnum c = true) ∧ isSlot d = true

/-- The file name of the convention with variable segment `v`, identifier
`id` and slot digit `d`. -/
def artifactName (v id : Str) (d : Char) : Str :=
  "sriov-public".toList ++ v ++ "-net-".toList ++ id ++ "-net".toList ++ [d]

/-- The name is, as a whole string, of the naming convention. -/
def WholeForm (name : Str) : Prop :=
  ∃ v id d, ArtifactForm v id d ∧ name = artifactName v id d

/-- The name contains a string of the naming convention. -/
def ContainsForm (name : Str) : Prop :=
  ∃ pre v id d post, ArtifactForm v id d ∧ name = pre ++ artifactName v id d ++ post

/-! ## Text forms used in the statements -/

/-- A decimal digit. -/
def isDigit (c : Char) : Prop := '0' ≤ c ∧ c ≤ '9'

/-- The text is empty or starts with a character that is no digit. -/
def stopsNumber : Str → Prop
  | [] => True
  | c :: _ => ¬ isDigit c

/-- Dotted-decimal text of four octets, as `IP.String` writes it. -/
def dotted (a b c d : Nat) : Str :=
  uitoa a ++ '.' :: (uitoa b ++ '.' :: (uitoa c ++ '.' :: uitoa d))

/-- CIDR text `a.b.c.d/p`. -/
def cidrText (a b c d p : Nat) : Str :=
  dotted a b c d ++ '/' :: uitoa p

/-! ## The network of an address, arithmetically -/

/-- The 32-bit value of the address `a.b.c.d`. -/
def addrValue (a b c d : Nat) : Nat := ((a * 256 + b) * 256 + c) * 256 + d

/-- The 32-bit value `x` with its low `32 - p` bits cleared. -/
def clearLowBits (x p : Nat) : Nat := x / 2 ^ (32 - p) * 2 ^ (32 - p)

/-- The four octets of a 32-bit value, most significant first. -/
def octets (x : Nat) : List Nat := [x / 2 ^ 24 % 256, x / 2 ^ 16 % 256, x / 2 ^ 8 % 256, x % 256]

/-- One byte of a `/n` mask: `n` leading ones, at most eight. -/
def maskByte (n : Nat) : Nat := if n ≥ 8 then 0xff else 0xff - (0xff >>> n)

/-! ## The request for an IPv4 address -/

/-- Base address (four octets) of the network of `a.b.c.d/p`. -/
def networkBase (a b c d p : Nat) : IP := octets (clearLowBits (addrValue a b c d) p)

/-- The network of `a.b.c.d/p`. -/
def networkOf (a b c d p : Nat) : IPNet := { IP := networkBase a b c d p, Mask := CIDRMask p 32 }

/-- CIDR text of the network of `a.b.c.d/p`. -/
def rangeText (a b c d p : Nat) : Str :=
  cidrText (clearLowBits (addrValue a b c d) p / 2 ^ 24 % 256)
    (clearLowBits (addrValue a b c d) p / 2 ^ 16 % 256)
    (clearLowBits (addrValue a b c d) p / 2 ^ 8 % 256)
    (clearLowBits (addrValue a b c d) p % 256) p

/-- The request `main` builds for the address `a.b.c.d/p`, given the bounds
`firstIP`, `lastIP` and the value of the kubeconfig variable. -/
def requestFor (a b c d p : Nat) (firstIP lastIP : IP) (kubeconfig : Str) : IPAMConfig :=
  { Range := rangeText a b c d p
    RangeStart := firstIP
    RangeEnd := lastIP
    Addresses := [{ AddressStr := dotted a b c d
                    Address := { IP := IPv4 a b c d, Mask := CIDRMask p 32 } }]
    Datastore := .Kubernetes
    Kubernetes := { KubeConfigPath := kubeconfig } }

/-! ## A sample directory -/

/-- Decision procedure for `roundSafe`. -/
def roundSafeB (lib : Lib) (w : World) (name : Str) : Bool :=
  if FindAllStringSubmatch name = [] then true
  else
    match w.ReadFile (w.resultsDir ++ '/' :: name) with
    | .error _ => true
    | .ok contents =>
      match lib.Unmarshal contents with
      | .error _ => true
      | .ok res =>
        match res.IPs with
        | some _ :: _ => true
        | _ => false

/-- The decoded result of a listed file, when the loop gets that far: the
name matches, the file is read and its content decodes. -/
def decoded (lib : Lib) (w : World) (name : Str) : Option Result :=
  if FindAllStringSubmatch name = [] then none
  else
    match w.ReadFile (w.resultsDir ++ '/' :: name) with
    | .error _ => none
    | .ok contents =>
      match lib.Unmarshal contents with
      | .error _ => none
      | .ok res => some res

/-- The result holds at least one assigned IP that is not nil. -/
def hasNonNullIP (res : Result) : Bool := res.IPs.any Option.isSome

/-- Every decoded result of the listing holds at least one assigned IP that
is not nil. -/
def allHaveNonNullIP (lib : Lib) (w : World) (files : List Str) : Bool :=
  files.all fun name =>
    match decoded lib w name with
    | some res => hasNonNullIP res
    | none => true

/-- File content whose `ips` sequence is a `null` followed by the address
`24.51.17.125/29`. -/
def nullThenGoodJSON : Str :=
  "\x7b\"cniVersion\":\"0.4.0\",\"ips\":[null,\x7b\"version\":\"4\",\"address\":\"24.51.17.125/29\"\x7d]\x7d".toList

/-- The sample library, with a decoder that also knows `nullThenGoodJSON`. -/
def nullFirstLib : Lib where
  net := sampleLib.net
  Unmarshal := fun c =>
    if c = nullThenGoodJSON then
      .ok { CNIVersion := "0.4.0".toList
            IPs := [none,
                    some { Version := "4".toList
                           Address := { IP := IPv4 24 51 17 125, Mask := CIDRMask 29 32 }
                           Gateway := [] }] }
    else sampleLib.Unmarshal c
  GetIPRange := sampleLib.GetIPRange

/-- A directory whose first artifact has a `null` before its address and whose
second artifact is well formed. -/
def nullFirstDir : World :=
  dirWorld [("sriov-public-net-abc123-net1".toList, nullThenGoodJSON),
    ("sriov-public-net-def456-net2".toList, goodJSON)]

/-- A directory with a stray file, an artifact that is not JSON and two
well-formed artifacts. -/
def mixedDir : World :=
  dirWorld [("notes.txt".toList, "hello".toList),
    ("sriov-public-net-bad000-net1".toList, "not json".toList),
    ("sriov-public-net-aaa111-net2".toList, goodJSON),
    ("sriov-public-net-abc123-net1".toList, goodJSON)]

/-! ## Structure of the loop -/

theorem reads_append (a b : List Event) : reads (a ++ b) = reads a ++ reads b := by
  induction a with
  | nil => rfl
  | cons e es ih => cases e <;> simp [reads, ih]

theorem calls_append (a b : List Event) : calls (a ++ b) = calls a ++ calls b := by
  induction a with
  | nil => rfl
  | cons e es ih => cases e <;> simp [calls, ih]

theorem bounds_append (a b : List Event) : bounds (a ++ b) = bounds a ++ bounds b := by
  induction a with
  | nil => rfl
  | cons e es ih => cases e <;> simp [bounds, ih]

/-- The calls a round makes, and whether it panics, do not depend on the
store or on its state. -/
theorem iteration_store_indep {σ τ : Type} (lib : Lib) (w : World) (st : Store σ) (s : σ)
    (st2 : Store τ) (s2 : τ) (name : Str) :
    (iteration lib w st s name).events = (iteration lib w st2 s2 name).events ∧
      (iteration lib w st s name).panicked = (iteration lib w st2 s2 name).panicked := by
  simp only [iteration]
  repeat (first | exact ⟨rfl, rfl⟩ | split)

/-- The calls a run of the loop makes, and how it ends, do not depend on the
store or on its state. -/
theorem loop_store_indep {σ τ : Type} (lib : Lib) (w : World) (st : Store σ)
    (st2 : Store τ) (files : List Str) (s : σ) (s2 : τ) :
    (loop lib w st s files).events = (loop lib w st2 s2 files).events ∧
      (loop lib w st s files).exit = (loop lib w st2 s2 files).exit := by
  induction files generalizing s s2 with
  | nil => exact ⟨rfl, rfl⟩
  | cons f fs ih =>
    obtain ⟨he, hp⟩ := iteration_store_indep lib w st s st2 s2 f
    simp only [loop, ← hp, ← he]
    split
    · exact ⟨rfl, rfl⟩
    · obtain ⟨h1, h2⟩ := ih (iteration lib w st s f).store (iteration lib w st2 s2 f).store
      simp [h1, h2]

theorem iteration_no_panic {σ : Type} (lib : Lib) (w : World) (st : Store σ) (s : σ)
    (name : Str) (h : roundSafe lib w name) : (iteration lib w st s name).panicked = false := by
  simp only [iteration]
  split
  · rfl
  · rename_i hm
    have hne : FindAllStringSubmatch name ≠ [] := by
      intro h0
      exact hm (Or.inl (by rw [h0]; rfl))
    split
    · rfl
    · rename_i contents hread
      split
      · rfl
      · rename_i res hres
        obtain ⟨ipc, rest, hips⟩ := h hne contents res hread hres
        simp only [hips]
        repeat (first | rfl | split)

theorem loop_no_panic {σ : Type} (lib : Lib) (w : World) (st : Store σ) (files : List Str)
    (h : ∀ name ∈ files, roundSafe lib w name) (s : σ) :
    (loop lib w st s files).exit = .ok := by
  induction files generalizing s with
  | nil => rfl
  | cons f fs ih =>
    have hf := iteration_no_panic lib w st s f (h f (List.mem_cons_self f fs))
    simp only [loop, hf]
    exact ih (fun n hn => h n (List.mem_cons_of_mem f hn)) _

/-- The loop over `xs ++ ys` is the loop over `xs` followed, when that one
ends normally, by the loop over `ys` from the store `xs` left. -/
theorem loop_append {σ : Type} (lib : Lib) (w : World) (st : Store σ) (xs ys : List Str) (s : σ)
    (h : (loop lib w st s xs).exit = .ok) :
    (loop lib w st s (xs ++ ys)).events =
        (loop lib w st s xs).events ++ (loop lib w st (loop lib w st s xs).store ys).events ∧
      (loop lib w st s (xs ++ ys)).exit = (loop lib w st (loop lib w st s xs).store ys).exit := by
  induction xs generalizing s with
  | nil => exact ⟨rfl, rfl⟩
  | cons f fs ih =>
    simp only [loop, List.cons_append] at h ⊢
    split at h
    · simp at h
    · rename_i hp
      simp only [hp] 
      obtain ⟨h1, h2⟩ := ih _ h
      simp [h1, h2]

/-! ## The fatal branch, the panic, and independence of the store -/

/-- C1 (code defect): a missing results directory is reported by the listing
as a path error, which is not the value `os.ErrNotExist` the guard compares
with; the run takes the fatal branch and exits with status 1, whatever the
library and the store. -/
theorem C1_missing_directory_exits_with_status_1 {σ : Type} (lib : Lib) (st : Store σ) (s : σ) :
    (main lib missingDirWorld st s).exit = .fatal ∧
      (main lib missingDirWorld st s).exit.code = 1 := by
  constructor <;> rfl

/-- C2 (code defect): an artifact that decodes to an empty `ips` sequence
makes the run panic on `IPs[0]`: the process ends with status 2 after reading
that file, and the well-formed entry listed after it gets no reservation call,
although it gets one when the empty-ips artifact is absent. -/
theorem C2_empty_ips_panics :
    (main sampleLib (dirWorld [("sriov-public-net-abc123-net1".toList, emptyIPsJSON),
        ("sriov-public-net-def456-net2".toList, goodJSON)]) countingStore 0).exit = .panic ∧
    (main sampleLib (dirWorld [("sriov-public-net-abc123-net1".toList, emptyIPsJSON),
        ("sriov-public-net-def456-net2".toList, goodJSON)]) countingStore 0).events
      = [.readFile "/r/sriov-public-net-abc123-net1".toList] ∧
    calls (main sampleLib (dirWorld [("sriov-public-net-def456-net2".toList, goodJSON)])
        countingStore 0).events = [sampleRequest "def456".toList] := by
  decide

/-- C8 (code defect): with a listing that succeeds, a matching file whose
`ips` sequence starts with `null` makes the run end in a panic, status 2. -/
theorem C8_null_first_ip_panics :
    (main sampleLib (dirWorld [("sriov-public-net-abc123-net1".toList, nullIPJSON)])
        countingStore 0).exit.code = 2 := by
  decide

/-- C3 (code defect): in the directory `nullFirstDir` every decoded result
holds an assigned IP that is not nil, yet the first artifact, whose `ips`
sequence starts with `null`, makes the run over `xs ++ ys` panic on
`IPs[0].Address`: it ends with status 2 and issues no reservation call, while
the run over `ys` alone issues the call of its well-formed entry.  The calls
for `xs ++ ys` are not the calls for `xs` followed by the calls for `ys`. -/
theorem C3_null_first_ip_breaks_containment :
    allHaveNonNullIP nullFirstLib nullFirstDir
        (["sriov-public-net-abc123-net1".toList] ++ ["sriov-public-net-def456-net2".toList])
      = true ∧
    (main nullFirstLib (nullFirstDir.withListing
        (["sriov-public-net-abc123-net1".toList] ++ ["sriov-public-net-def456-net2".toList]))
        countingStore 0).exit.code = 2 ∧
    calls (main nullFirstLib (nullFirstDir.withListing
        (["sriov-public-net-abc123-net1".toList] ++ ["sriov-public-net-def456-net2".toList]))
        countingStore 0).events = [] ∧
    calls (main nullFirstLib (nullFirstDir.withListing ["sriov-public-net-abc123-net1".toList])
        countingStore 0).events ++
      calls (main nullFirstLib (nullFirstDir.withListing ["sriov-public-net-def456-net2".toList])
        countingStore 0).events = [sampleRequest "def456".toList] := by
  decide

/-- C9: the sequence of calls of a run, reservation requests included, is
the same for any two stores and store states over one library and world; and
the calls of one round stay the same when the store, the listing and the
content of every other file are replaced: they depend on the world only
through the two environment variables and the outcome of reading that file. -/
theorem C9_requests_independent_of_store {σ τ : Type} (lib : Lib) (w : World)
    (st : Store σ) (s : σ) (st2 : Store τ) (s2 : τ) :
    (main lib w st s).events = (main lib w st2 s2).events ∧
    calls (main lib w st s).events = calls (main lib w st2 s2).events ∧
    ∀ (rd : Str → Except GoError (List Str)) (rf : Str → Except GoError Str) (name : Str),
      (iteration lib w st s name).events =
        (iteration lib
          { resultsDir := w.resultsDir
            kubeconfig := w.kubeconfig
            ReadDir := rd
            ReadFile := fun p => if p = w.resultsDir ++ '/' :: name then w.ReadFile p else rf p }
          st2 s2 name).events := by
  have hmain : (main lib w st s).events = (main lib w st2 s2).events := by
    unfold main
    split
    · split
      · rfl
      · exact (loop_store_indep lib w st st2 [] s s2).1
    · exact (loop_store_indep lib w st st2 _ s s2).1
  refine ⟨hmain, by rw [hmain], ?_⟩
  intro rd rf name
  simp only [iteration, if_true]
  repeat (first | rfl | split)

/-! ## Containment of failures -/

/-- The loop issues, in listing order, the calls of the rounds, as long as
no round panics. -/
theorem loop_events_flatMap {σ : Type} (lib : Lib) (w : World) (st : Store σ) (files : List Str)
    (h : ∀ name ∈ files, roundSafe lib w name) (s : σ) :
    (loop lib w st s files).events = files.flatMap (fun f => (iteration lib w st s f).events) := by
  induction files generalizing s with
  | nil => rfl
  | cons f fs ih =>
    have hf := iteration_no_panic lib w st s f (h f (List.mem_cons_self f fs))
    simp only [loop, hf, List.flatMap_cons]
    rw [ih (fun n hn => h n (List.mem_cons_of_mem f hn))]
    simp only [Bool.false_eq_true, if_false]
    congr 1
    apply List.flatMap_congr
    intro n _
    exact (iteration_store_indep lib w st _ st s n).1

theorem calls_flatMap {α : Type} (l : List α) (f : α → List Event) :
    calls (l.flatMap f) = l.flatMap (fun x => calls (f x)) := by
  induction l with
  | nil => rfl
  | cons x xs ih => simp [List.flatMap_cons, calls_append, ih]

theorem iteration_withListing {σ : Type} (lib : Lib) (w : World) (st : Store σ) (s : σ)
    (files : List Str) (name : Str) :
    iteration lib (w.withListing files) st s name = iteration lib w st s name := by
  simp only [iteration, World.withListing]

theorem loop_withListing {σ : Type} (lib : Lib) (w : World) (st : Store σ)
    (files l : List Str) (s : σ) :
    loop lib (w.withListing files) st s l = loop lib w st s l := by
  induction l generalizing s with
  | nil => rfl
  | cons f fs ih => simp only [loop, iteration_withListing, ih]

/-- With the listing `files`, `main` is the loop over `files`. -/
theorem main_withListing {σ : Type} (lib : Lib) (w : World) (st : Store σ) (s : σ)
    (files : List Str) : main lib (w.withListing files) st s = loop lib w st s files := by
  have h : (w.withListing files).ReadDir (w.withListing files).resultsDir = .ok files := rfl
  simp only [main, h, loop_withListing]

/-- Containment outside the panic: when every decoded result of the listing
`xs ++ ys` starts with a non-nil assigned IP, the reservation calls of the run
over `xs ++ ys` are the calls of the run over `xs` followed by the calls of the
run over `ys` alone, and they are, in listing order, the calls of the single
rounds: whatever happens to the entries of `xs`, each entry of `ys` gets the
call its own round issues. -/
theorem containment_first_ip_present {σ : Type} (lib : Lib) (w : World) (st : Store σ) (s : σ)
    (xs ys : List Str) (h : ∀ name ∈ xs ++ ys, roundSafe lib w name) :
    calls (main lib (w.withListing (xs ++ ys)) st s).events =
        calls (main lib (w.withListing xs) st s).events ++
          calls (main lib (w.withListing ys) st s).events ∧
    calls (main lib (w.withListing (xs ++ ys)) st s).events =
        (xs ++ ys).flatMap (fun f => calls (iteration lib w st s f).events) ∧
    (main lib (w.withListing (xs ++ ys)) st s).exit = .ok := by
  have hx : ∀ name ∈ xs, roundSafe lib w name :=
    fun n hn => h n (List.mem_append_left ys hn)
  have hy : ∀ name ∈ ys, roundSafe lib w name :=
    fun n hn => h n (List.mem_append_right xs hn)
  simp only [main_withListing]
  refine ⟨?_, ?_, loop_no_panic lib w st _ h s⟩
  · rw [loop_events_flatMap lib w st _ h, loop_events_flatMap lib w st _ hx,
      loop_events_flatMap lib w st _ hy, List.flatMap_append, calls_append]
  · rw [loop_events_flatMap lib w st _ h, calls_flatMap]

/-! ## Every request lies in its range -/

/-- The network `ParseCIDR` returns is the returned address masked with the
network's own mask. -/
theorem ParseCIDR_network (nt : NetText) (s : Str) (ip : IP) (n : IPNet)
    (h : ParseCIDR nt s = some (ip, n)) : n.IP = IP.Mask ip n.Mask := by
  simp only [ParseCIDR] at h
  split at h
  · simp at h
  · split at h
    · simp at h
    · split at h
      · simp at h
      · simp only [Option.some.injEq, Prod.mk.injEq] at h
        obtain ⟨h1, h2⟩ := h
        subst h1
        subst h2
        rfl

theorem requestInRange_mono (nt : NetText) (ev pre post : List Event)
    (call : Action × IPAMConfig × Str) (h : requestInRange nt ev call) :
    requestInRange nt (pre ++ ev ++ post) call := by
  obtain ⟨e, n, h1, h2, h3, h4, h5⟩ := h
  refine ⟨e, n, h1, h2, h3, h4, ?_⟩
  simp only [bounds_append, List.mem_append]
  exact Or.inl (Or.inr h5)

theorem iteration_requestInRange {σ : Type} (lib : Lib) (w : World) (st : Store σ) (s : σ)
    (name : Str) (call : Action × IPAMConfig × Str)
    (h : call ∈ calls (iteration lib w st s name).events) :
    requestInRange lib.net (iteration lib w st s name).events call := by
  simp only [iteration] at h ⊢
  split at h
  · simp [calls] at h
  · rename_i hm
    simp only [hm, if_false]
    split at h
    · simp [calls] at h
    · split at h
      · simp [calls] at h
      · split at h
        · simp [calls] at h
        · simp [calls] at h
        · split at h
          · simp [calls] at h
          · rename_i reserveIP reserveCIDR hp
            split at h
            · simp [calls] at h
            · simp only [calls, List.mem_singleton] at h
              subst h
              refine ⟨_, reserveCIDR, rfl, rfl, rfl, ?_, ?_⟩
              · exact (ParseCIDR_network _ _ _ _ hp).symm
              · simp [bounds]

theorem loop_requestInRange {σ : Type} (lib : Lib) (w : World) (st : Store σ)
    (files : List Str) (s : σ) (call : Action × IPAMConfig × Str)
    (h : call ∈ calls (loop lib w st s files).events) :
    requestInRange lib.net (loop lib w st s files).events call := by
  induction files generalizing s with
  | nil => simp [loop, calls] at h
  | cons f fs ih =>
    simp only [loop] at h ⊢
    split
    · rename_i hp
      simp only [hp, if_true] at h
      exact iteration_requestInRange lib w st s f call h
    · rename_i hp
      simp only [hp, Bool.false_eq_true, if_false, calls_append, List.mem_append] at h
      rcases h with h | h
      · have := requestInRange_mono lib.net _ [] (loop lib w st (iteration lib w st s f).store fs).events
          call (iteration_requestInRange lib w st s f call h)
        simpa using this
      · have := requestInRange_mono lib.net _ (iteration lib w st s f).events [] call (ih _ h)
        simpa using this

/-- C10: every reservation request of a run reserves an address inside the
range it declares: `Addresses` has one entry, `Range` is the text of a network
whose mask is the entry's mask and whose base address is the entry's IP ANDed
with that mask, and the boundary function was called with that network and
with the address parsed back from the text of its base address. -/
theorem C10_reserved_address_lies_in_range {σ : Type} (lib : Lib) (w : World) (st : Store σ)
    (s : σ) (call : Action × IPAMConfig × Str)
    (h : call ∈ calls (main lib w st s).events) :
    ∃ (e : Address) (n : IPNet),
      call.2.1.Addresses = [e] ∧
      call.2.1.Range = IPNet.String lib.net n ∧
      e.Address.Mask = n.Mask ∧
      IP.Mask e.Address.IP e.Address.Mask = n.IP ∧
      ((ParseIP lib.net (IP.String lib.net n.IP)).getD [], n) ∈ bounds (main lib w st s).events := by
  unfold main at h ⊢
  split
  · rename_i err herr
    simp only [herr] at h
    split
    · rename_i hne
      simp [hne, calls] at h
    · rename_i hne
      simp [hne, calls, loop] at h
  · rename_i files hfiles
    simp only [hfiles] at h
    exact loop_requestInRange lib w st files s call h

/-! ## The matcher: what a match looks like -/

theorem lit_append {α : Type} (p : Str) (k : Str → Option α) (t : Str) :
    lit p k (p ++ t) = k t := by
  induction p with
  | nil => cases t <;> rfl
  | cons c cs ih => simp [lit, ih]

theorem lit_eq_some {α : Type} (p : Str) (k : Str → Option α) (s : Str) (r : α)
    (h : lit p k s = some r) : ∃ t, s = p ++ t ∧ k t = some r := by
  induction p generalizing s with
  | nil => exact ⟨s, rfl, by cases s <;> exact h⟩
  | cons c cs ih =>
    cases s with
    | nil => simp [lit] at h
    | cons x xs =>
      simp only [lit] at h
      split at h
      · rename_i hx
        obtain ⟨t, ht, hk⟩ := ih xs h
        exact ⟨t, by simp [hx, ht], hk⟩
      · simp at h

theorem one_eq_some {α : Type} (cls : Char → Bool) (k : Str → Option α) (s : Str) (r : α)
    (h : one cls k s = some r) : ∃ c t, s = c :: t ∧ cls c = true ∧ k t = some r := by
  cases s with
  | nil => simp [one] at h
  | cons x xs =>
    simp only [one] at h
    split at h
    · rename_i hx
      exact ⟨x, xs, rfl, hx, h⟩
    · simp at h

theorem star_eq_some {α : Type} (cls : Char → Bool) (k : Str → Str → Option α) (s acc : Str)
    (r : α) (h : star cls k acc s = some r) :
    ∃ v t, s = v ++ t ∧ (∀ c ∈ v, cls c = true) ∧ k (acc ++ v) t = some r := by
  induction s generalizing acc with
  | nil => exact ⟨[], [], rfl, by simp, by simpa [star] using h⟩
  | cons x xs ih =>
    simp only [star] at h
    split at h
    · rename_i hx
      split at h
      · rename_i r1 hr
        simp only [Option.some.injEq] at h
        subst h
        obtain ⟨v, t, hs, hv, hk⟩ := ih (acc ++ [x]) hr
        refine ⟨x :: v, t, by simp [hs], ?_, ?_⟩
        · intro c hc
          rcases List.mem_cons.mp hc with rfl | hc
          · exact hx
          · exact hv c hc
        · simpa using hk
      · exact ⟨[], x :: xs, rfl, by simp, by simpa using h⟩
    · exact ⟨[], x :: xs, rfl, by simp, by simpa using h⟩

theorem plus_eq_some {α : Type} (cls : Char → Bool) (k : Str → Str → Option α) (s : Str)
    (r : α) (h : plus cls k s = some r) :
    ∃ v t, v ≠ [] ∧ s = v ++ t ∧ (∀ c ∈ v, cls c = true) ∧ k v t = some r := by
  cases s with
  | nil => simp [plus] at h
  | cons x xs =>
    simp only [plus] at h
    split at h
    · rename_i hx
      obtain ⟨v, t, hs, hv, hk⟩ := star_eq_some cls k xs [x] r h
      refine ⟨x :: v, t, by simp, by simp [hs], ?_, by simpa using hk⟩
      intro c hc
      rcases List.mem_cons.mp hc with rfl | hc
      · exact hx
      · exact hv c hc
    · simp at h

/-- Greedy preference: when the repetition, having consumed `v` more
characters of the class, succeeds, the repetition succeeds with that result. -/
theorem star_prefers_longer {α : Type} (cls : Char → Bool) (k : Str → Str → Option α)
    (v t acc : Str) (r : α) (hv : ∀ c ∈ v, cls c = true)
    (h : star cls k (acc ++ v) t = some r) : star cls k acc (v ++ t) = some r := by
  induction v generalizing acc with
  | nil => simpa using h
  | cons x xs ih =>
    have hx : cls x = true := hv x (List.mem_cons_self x xs)
    have := ih (acc ++ [x]) (fun c hc => hv c (List.mem_cons_of_mem x hc)) (by simpa using h)
    simp [star, hx, this]

/-- The repetition fails when its continuation fails on every suffix. -/
theorem star_eq_none {α : Type} (cls : Char → Bool) (k : Str → Str → Option α) (s acc : Str)
    (h : ∀ a u, u <:+ s → k a u = none) : star cls k acc s = none := by
  induction s generalizing acc with
  | nil => simpa [star] using h acc [] (List.suffix_refl _)
  | cons x xs ih =>
    have h1 := ih (acc ++ [x]) (fun a u hu => h a u (hu.trans (List.suffix_cons x xs)))
    have h2 := h acc (x :: xs) (List.suffix_refl _)
    simp [star, h1, h2]

theorem star_cons_of_class {α : Type} (cls : Char → Bool) (k : Str → Str → Option α)
    (acc : Str) (c : Char) (s : Str) (hc : cls c = true)
    (h : star cls k (acc ++ [c]) s = none) : star cls k acc (c :: s) = k acc (c :: s) := by
  simp [star, hc, h]

theorem afterGroup_eq_some (cap s c2 rest : Str) (h : afterGroup cap s = some (c2, rest)) :
    c2 = cap ∧ ∃ d, isSlot d = true ∧ s = "-net".toList ++ d :: rest := by
  obtain ⟨t, ht, hk⟩ := lit_eq_some _ _ _ _ h
  obtain ⟨d, t2, ht2, hd, hk2⟩ := one_eq_some _ _ _ _ hk
  simp only [Option.some.injEq, Prod.mk.injEq] at hk2
  exact ⟨hk2.1.symm, d, hd, by rw [ht, ht2, hk2.2]⟩

theorem afterVar_eq_some (s cap rest : Str) (h : afterVar s = some (cap, rest)) :
    cap ≠ [] ∧ (∀ c ∈ cap, isAlnum c = true) ∧
      ∃ d, isSlot d = true ∧ s = "-net-".toList ++ cap ++ "-net".toList ++ d :: rest := by
  obtain ⟨t, ht, hk⟩ := lit_eq_some _ _ _ _ h
  obtain ⟨v, t2, hne, ht2, hv, hk2⟩ := plus_eq_some _ _ _ _ hk
  obtain ⟨hc, d, hd, hs⟩ := afterGroup_eq_some _ _ _ _ hk2
  subst hc
  exact ⟨hne, hv, d, hd, by rw [ht, ht2, hs]; simp⟩

theorem matchHere_eq_some (s cap rest : Str) (h : matchHere s = some (cap, rest)) :
    ∃ v d, ArtifactForm v cap d ∧ s = artifactName v cap d ++ rest := by
  obtain ⟨t, ht, hk⟩ := lit_eq_some _ _ _ _ h
  obtain ⟨v, t2, ht2, hv, hk2⟩ := star_eq_some _ _ _ _ _ hk
  obtain ⟨hne, hcap, d, hd, hs⟩ := afterVar_eq_some _ _ _ hk2
  exact ⟨v, d, ⟨hv, hne, hcap, hd⟩, by rw [ht, ht2, hs]; simp [artifactName]⟩

theorem findFirst_eq_some (s full cap rest : Str) (h : findFirst s = some (full, cap, rest)) :
    ∃ pre v d, ArtifactForm v cap d ∧ full = artifactName v cap d ∧
      s = pre ++ artifactName v cap d ++ rest := by
  induction s with
  | nil => simp [findFirst] at h
  | cons x xs ih =>
    simp only [findFirst] at h
    split at h
    · rename_i cap1 rest1 hm
      simp only [Option.some.injEq, Prod.mk.injEq] at h
      obtain ⟨hfull, hcap, hrest⟩ := h
      subst hcap
      subst hrest
      obtain ⟨v, d, hform, hs⟩ := matchHere_eq_some _ _ _ hm
      refine ⟨[], v, d, hform, ?_, by simpa using hs⟩
      rw [← hfull, hs]
      simp
    · obtain ⟨pre, v, d, hform, hfull, hs⟩ := ih h
      exact ⟨x :: pre, v, d, hform, hfull, by simp [hs]⟩

/-- A name that contains no string of the naming convention has no match. -/
theorem FindAllStringSubmatch_eq_nil (name : Str) (h : ¬ ContainsForm name) :
    FindAllStringSubmatch name = [] := by
  simp only [FindAllStringSubmatch, findAllFrom]
  split
  · rfl
  · rename_i full cap rest hf
    obtain ⟨pre, v, d, hform, _, hs⟩ := findFirst_eq_some _ _ _ _ hf
    exact absurd ⟨pre, v, cap, d, rest, hform, hs⟩ h

/-! ## The matcher on names of the convention -/

theorem isAlnum_ne_hyphen (c : Char) (h : isAlnum c = true) : c ≠ '-' := by
  rintro rfl
  revert h
  decide

theorem isSlot_ne_hyphen (c : Char) (h : isSlot c = true) : c ≠ '-' := by
  rintro rfl
  revert h
  decide

theorem count_hyphen_alnum (id : Str) (h : ∀ c ∈ id, isAlnum c = true) :
    List.count '-' id = 0 := by
  rw [List.count_eq_zero]
  intro hm
  exact isAlnum_ne_hyphen _ (h _ hm) rfl

/-- After the captured identifier the pattern finishes on `-net` and the slot digit. -/
theorem afterVar_tail (id : Str) (d : Char) (rest : Str) (hne : id ≠ [])
    (hid : ∀ c ∈ id, isAlnum c = true) (hd : isSlot d = true) :
    afterVar ("-net-".toList ++ id ++ "-net".toList ++ d :: rest) = some (id, rest) := by
  cases id with
  | nil => exact absurd rfl hne
  | cons x xs =>
    have hx : isAlnum x = true := hid x (List.mem_cons_self x xs)
    have hstop : star isAlnum afterGroup ([x] ++ xs) ("-net".toList ++ d :: rest)
        = some (x :: xs, rest) := by
      have h1 : "-net".toList ++ d :: rest = '-' :: ("net".toList ++ d :: rest) := rfl
      have h2 : isAlnum '-' = false := by decide
      rw [h1]
      simp only [star, h2]
      rw [← h1]
      simp only [afterGroup, lit_append, one, hd, if_true, Bool.false_eq_true, if_false]
      rfl
    have := star_prefers_longer isAlnum afterGroup xs ("-net".toList ++ d :: rest) [x]
      (x :: xs, rest) (fun c hc => hid c (List.mem_cons_of_mem x hc)) hstop
    simp only [afterVar, List.append_assoc, lit_append]
    simp only [List.cons_append, plus, hx, if_true]
    exact this

/-- No later start of the `-net-` separator leads to a match: a match needs
three hyphens, and what follows the first hyphen of the separator holds two. -/
theorem afterVar_none_later (id : Str) (d : Char) (u : Str)
    (hid : ∀ c ∈ id, isAlnum c = true) (hd : isSlot d = true)
    (hu : u <:+ "net-".toList ++ id ++ "-net".toList ++ [d]) : afterVar u = none := by
  cases hres : afterVar u with
  | none => rfl
  | some r =>
    obtain ⟨cap, rest⟩ := r
    obtain ⟨_, _, d2, _, hs⟩ := afterVar_eq_some u cap rest hres
    have hle := hu.sublist.count_le '-'
    have hd1 : (d == '-') = false := by simpa using isSlot_ne_hyphen d hd
    have hcount : List.count '-' ("net-".toList ++ id ++ "-net".toList ++ [d]) = 2 := by
      simp [List.count_append, List.count_cons, count_hyphen_alnum id hid, hd1]
    have hcu : 3 ≤ List.count '-' u := by
      rw [hs]
      simp [List.count_append, List.count_cons]
      omega
    omega

/-- On a name of the convention the pattern matches at the start, consumes
the whole name and captures the identifier. -/
theorem matchHere_artifactName (v id : Str) (d : Char) (h : ArtifactForm v id d) :
    matchHere (artifactName v id d) = some (id, []) := by
  obtain ⟨hv, hne, hid, hd⟩ := h
  have htail := afterVar_tail id d [] hne hid hd
  have hstar : star isVar (fun _ rest => afterVar rest) ([] ++ v)
      ("-net-".toList ++ id ++ "-net".toList ++ [d]) = some (id, []) := by
    have h1 : "-net-".toList ++ id ++ "-net".toList ++ [d]
        = '-' :: ("net-".toList ++ id ++ "-net".toList ++ [d]) := rfl
    have h2 : isVar '-' = true := by decide
    have hnone := star_eq_none isVar (fun _ rest => afterVar rest)
      ("net-".toList ++ id ++ "-net".toList ++ [d]) (([] ++ v) ++ ['-'])
      (fun _ u hu => afterVar_none_later id d u hid hd hu)
    rw [h1, star_cons_of_class isVar _ _ _ _ h2 hnone, ← h1]
    exact htail
  have := star_prefers_longer isVar (fun _ rest => afterVar rest) v
    ("-net-".toList ++ id ++ "-net".toList ++ [d]) [] (id, []) hv hstar
  simp only [matchHere, artifactName, List.append_assoc, lit_append]
  simpa using this

theorem findFirst_artifactName (v id : Str) (d : Char) (h : ArtifactForm v id d) :
    findFirst (artifactName v id d) = some (artifactName v id d, id, []) := by
  have hm := matchHere_artifactName v id d h
  have hc : artifactName v id d = 's' :: ("riov-public".toList ++ v ++ "-net-".toList ++ id
      ++ "-net".toList ++ [d]) := rfl
  rw [hc] at hm ⊢
  simp only [findFirst, hm]
  simp

/-- C5: on every file name of the convention the matcher returns exactly one
match, the whole name, and the captured identifier `submatches[0][1]` is the
identifier segment of the name, non-empty and over `[a-z0-9]`. -/
theorem C5_identifier_extracted (v id : Str) (d : Char) (h : ArtifactForm v id d) :
    FindAllStringSubmatch (artifactName v id d) = [[artifactName v id d, id]] ∧
    ((FindAllStringSubmatch (artifactName v id d)).headD []).getD 1 [] = id ∧
    id ≠ [] ∧ (∀ c ∈ id, isAlnum c = true) := by
  have hf : FindAllStringSubmatch (artifactName v id d) = [[artifactName v id d, id]] := by
    simp only [FindAllStringSubmatch, findAllFrom, findFirst_artifactName v id d h]
    cases hl : (artifactName v id d).length with
    | zero => simp [artifactName] at hl
    | succ n => simp [findAllFrom, findFirst]
  refine ⟨hf, ?_, h.2.1, h.2.2.1⟩
  rw [hf]
  rfl

/-! ## The matcher finds every name that contains the convention -/

theorem star_complete {α : Type} (cls : Char → Bool) (k : Str → Str → Option α)
    (v t acc : Str) (r : α) (hv : ∀ c ∈ v, cls c = true) (h : k (acc ++ v) t = some r) :
    ∃ r2, star cls k acc (v ++ t) = some r2 := by
  have hbase : ∃ r2, star cls k (acc ++ v) t = some r2 := by
    cases t with
    | nil => exact ⟨r, by simpa [star] using h⟩
    | cons x xs =>
      simp only [star]
      split
      · split
        · rename_i r1 _
          exact ⟨r1, rfl⟩
        · exact ⟨r, h⟩
      · exact ⟨r, h⟩
  obtain ⟨r2, hr2⟩ := hbase
  exact ⟨r2, star_prefers_longer cls k v t acc r2 hv hr2⟩

theorem matchHere_complete (v id : Str) (d : Char) (post : Str) (h : ArtifactForm v id d) :
    ∃ r, matchHere (artifactName v id d ++ post) = some r := by
  obtain ⟨hv, hne, hid, hd⟩ := h
  have htail := afterVar_tail id d post hne hid hd
  obtain ⟨r, hr⟩ := star_complete isVar (fun _ rest => afterVar rest) v
    ("-net-".toList ++ id ++ "-net".toList ++ d :: post) [] (id, post) hv htail
  refine ⟨r, ?_⟩
  simp only [matchHere, artifactName, List.append_assoc, lit_append]
  simpa using hr

theorem findFirst_complete (name : Str) (h : ContainsForm name) :
    ∃ r, findFirst name = some r := by
  obtain ⟨pre, v, id, d, post, hform, hs⟩ := h
  subst hs
  induction pre with
  | nil =>
    obtain ⟨r, hr⟩ := matchHere_complete v id d post hform
    have hc : [] ++ artifactName v id d ++ post = 's' :: ("riov-public".toList ++ v
        ++ "-net-".toList ++ id ++ "-net".toList ++ [d] ++ post) := rfl
    have hc2 : artifactName v id d ++ post = 's' :: ("riov-public".toList ++ v
        ++ "-net-".toList ++ id ++ "-net".toList ++ [d] ++ post) := rfl
    rw [hc2] at hr
    rw [hc]
    simp only [findFirst, hr]
    exact ⟨_, rfl⟩
  | cons x xs ih =>
    simp only [List.cons_append, findFirst]
    split
    · exact ⟨_, rfl⟩
    · exact ih

/-- The matcher reports no match exactly on the names that contain no string
of the naming convention. -/
theorem FindAllStringSubmatch_eq_nil_iff (name : Str) :
    FindAllStringSubmatch name = [] ↔ ¬ ContainsForm name := by
  constructor
  · intro h hc
    obtain ⟨r, hr⟩ := findFirst_complete name hc
    simp [FindAllStringSubmatch, findAllFrom, hr] at h
  · exact FindAllStringSubmatch_eq_nil name

/-- A name is of the convention as a whole exactly when the pattern matches
at its start and consumes all of it. -/
theorem WholeForm_iff (name : Str) :
    WholeForm name ↔ ∃ id, matchHere name = some (id, []) := by
  constructor
  · rintro ⟨v, id, d, hform, rfl⟩
    exact ⟨id, matchHere_artifactName v id d hform⟩
  · rintro ⟨id, h⟩
    obtain ⟨v, d, hform, hs⟩ := matchHere_eq_some _ _ _ h
    exact ⟨v, id, d, hform, by simpa using hs⟩

/-- A round on a name without match makes no call and leaves the store alone. -/
theorem iteration_no_match {σ : Type} (lib : Lib) (w : World) (st : Store σ) (s : σ)
    (name : Str) (h : FindAllStringSubmatch name = []) :
    (iteration lib w st s name).events = [] ∧ (iteration lib w st s name).panicked = false ∧
      (iteration lib w st s name).store = s := by
  simp [iteration, h]

/-- C4 (as stated, refuted): the pattern is not anchored.  The three names
`x-sriov-public-net-abc123-net1`, `sriov-public-net-abc123-net1.bak` and
`sriov-public-net-abc123-net12` are not of the convention as whole strings,
yet each is matched with identifier `abc123`, and a run over a directory
holding the first one reads the file and issues a reservation for it. -/
theorem C4_unanchored_names_match :
    (¬ WholeForm "x-sriov-public-net-abc123-net1".toList ∧
      ¬ WholeForm "sriov-public-net-abc123-net1.bak".toList ∧
      ¬ WholeForm "sriov-public-net-abc123-net12".toList) ∧
    (FindAllStringSubmatch "x-sriov-public-net-abc123-net1".toList
        = [["sriov-public-net-abc123-net1".toList, "abc123".toList]] ∧
      FindAllStringSubmatch "sriov-public-net-abc123-net1.bak".toList
        = [["sriov-public-net-abc123-net1".toList, "abc123".toList]] ∧
      FindAllStringSubmatch "sriov-public-net-abc123-net12".toList
        = [["sriov-public-net-abc123-net1".toList, "abc123".toList]]) ∧
    reads (main sampleLib (dirWorld [("x-sriov-public-net-abc123-net1".toList, goodJSON)])
        countingStore 0).events = ["/r/x-sriov-public-net-abc123-net1".toList] ∧
    calls (main sampleLib (dirWorld [("x-sriov-public-net-abc123-net1".toList, goodJSON)])
        countingStore 0).events = [sampleRequest "abc123".toList] := by
  refine ⟨⟨?_, ?_, ?_⟩, by decide, by decide, by decide⟩
  · rw [WholeForm_iff]
    rintro ⟨id, h⟩
    have h2 : matchHere "x-sriov-public-net-abc123-net1".toList = none := by decide
    rw [h2] at h
    simp at h
  · rw [WholeForm_iff]
    rintro ⟨id, h⟩
    have h2 : matchHere "sriov-public-net-abc123-net1.bak".toList
        = some ("abc123".toList, ".bak".toList) := by decide
    rw [h2] at h
    simp at h
  · rw [WholeForm_iff]
    rintro ⟨id, h⟩
    have h2 : matchHere "sriov-public-net-abc123-net12".toList
        = some ("abc123".toList, "2".toList) := by decide
    rw [h2] at h
    simp at h

/-- C4 (amended): a file name that contains no string of the naming
convention is not matched, and the round for it reads no file, issues no
reservation and leaves the store as it was; so does a run over a directory
holding only that name. -/
theorem C4_no_match_without_convention {σ : Type} (lib : Lib) (w : World) (st : Store σ) (s : σ)
    (name : Str) (h : ¬ ContainsForm name) :
    FindAllStringSubmatch name = [] ∧
    (iteration lib w st s name).events = [] ∧
    (iteration lib w st s name).store = s ∧
    (main lib (w.withListing [name]) st s).events = [] ∧
    (main lib (w.withListing [name]) st s).exit = .ok := by
  have hnil := FindAllStringSubmatch_eq_nil name h
  obtain ⟨he, hp, hs⟩ := iteration_no_match lib w st s name hnil
  refine ⟨hnil, he, hs, ?_, ?_⟩
  · simp [main_withListing, loop, hp, he]
  · simp [main_withListing, loop, hp]

/-- C4 (amended) at the name `sriov-private-net-abc123-net1`. -/
theorem C4_no_match_without_convention_witness :
    ¬ ContainsForm "sriov-private-net-abc123-net1".toList ∧
    FindAllStringSubmatch "sriov-private-net-abc123-net1".toList = [] ∧
    (main sampleLib ((dirWorld []).withListing ["sriov-private-net-abc123-net1".toList])
      countingStore 0).events = [] :=
  have hn : ¬ ContainsForm "sriov-private-net-abc123-net1".toList :=
    (FindAllStringSubmatch_eq_nil_iff _).mp (by decide)
  ⟨hn, (C4_no_match_without_convention sampleLib (dirWorld []) countingStore 0 _ hn).1,
    (C4_no_match_without_convention sampleLib (dirWorld []) countingStore 0 _ hn).2.2.2.1⟩

/-! ## Decimal text and IPv4 text round trips -/

theorem digitChar_spec :
    ∀ x, x < 10 → (isDigit (digitChar x) ∧ (digitChar x).toNat - '0'.toNat = x) := by
  unfold isDigit
  decide

set_option maxRecDepth 100000 in
theorem uitoa_small : ∀ n, n < 256 →
    uitoa n = if n < 10 then [digitChar n]
      else if n < 100 then [digitChar (n / 10), digitChar (n % 10)]
      else [digitChar (n / 100), digitChar (n / 10 % 10), digitChar (n % 10)] := by
  decide

theorem dtoiLoop_digit (x n i : Nat) (s : Str) (hx : x < 10) (hn : n * 10 + x < big) :
    dtoiLoop (digitChar x :: s) n i = dtoiLoop s (n * 10 + x) (i + 1) := by
  obtain ⟨h1, h2⟩ := digitChar_spec x hx
  unfold isDigit at h1
  have hb : ¬ (n * 10 + x ≥ big) := by omega
  simp only [dtoiLoop, h1, h2, and_self, if_true, hb, if_false]

theorem dtoiLoop_stop (s : Str) (n i : Nat) (hs : stopsNumber s) (hi : i ≠ 0) :
    dtoiLoop s n i = (n, i, true) := by
  cases s with
  | nil => simp [dtoiLoop, hi]
  | cons c t =>
    have hc : ¬ ('0' ≤ c ∧ c ≤ '9') := hs
    simp only [dtoiLoop, hc, if_false, hi]

/-- `dtoi` reads back what `uitoa` wrote, up to the first character that is no digit. -/
theorem dtoi_uitoa (n : Nat) (rest : Str) (hn : n < 256) (hs : stopsNumber rest) :
    dtoi (uitoa n ++ rest) = (n, (uitoa n).length, true) := by
  rw [uitoa_small n hn]
  unfold dtoi
  have hbig : big = 16777215 := rfl
  split
  · rw [List.singleton_append, dtoiLoop_digit _ _ _ _ (by omega) (by omega),
      dtoiLoop_stop _ _ _ hs (by omega)]
    simp
  · split
    · rw [List.cons_append, List.singleton_append,
        dtoiLoop_digit _ _ _ _ (by omega) (by omega),
        dtoiLoop_digit _ _ _ _ (by omega) (by omega), dtoiLoop_stop _ _ _ hs (by omega)]
      simp
      omega
    · rw [List.cons_append, List.cons_append, List.singleton_append,
        dtoiLoop_digit _ _ _ _ (by omega) (by omega),
        dtoiLoop_digit _ _ _ _ (by omega) (by omega),
        dtoiLoop_digit _ _ _ _ (by omega) (by omega), dtoiLoop_stop _ _ _ hs (by omega)]
      simp
      omega

theorem uitoa_ne_nil (n : Nat) (hn : n < 256) : uitoa n ≠ [] := by
  rw [uitoa_small n hn]
  split
  · simp
  · split <;> simp

theorem uitoa_digits (n : Nat) (hn : n < 256) : ∀ c ∈ uitoa n, isDigit c := by
  rw [uitoa_small n hn]
  intro c hc
  split at hc
  · simp only [List.mem_singleton] at hc
    subst hc
    exact (digitChar_spec n (by omega)).1
  · split at hc
    · simp only [List.mem_cons, List.mem_singleton, List.not_mem_nil, or_false] at hc
      rcases hc with rfl | rfl
      · exact (digitChar_spec _ (by omega)).1
      · exact (digitChar_spec _ (by omega)).1
    · simp only [List.mem_cons, List.mem_singleton, List.not_mem_nil, or_false] at hc
      rcases hc with rfl | rfl | rfl
      · exact (digitChar_spec _ (by omega)).1
      · exact (digitChar_spec _ (by omega)).1
      · exact (digitChar_spec _ (by omega)).1

theorem not_isDigit_dot : ¬ isDigit '.' := by
  unfold isDigit
  decide

theorem parseOctet_first (a : Nat) (rest : Str) (ha : a < 256) (hs : stopsNumber rest) :
    parseOctet true (uitoa a ++ rest) = some (a, rest) := by
  have hne := uitoa_ne_nil a ha
  cases hu : uitoa a with
  | nil => exact absurd hu hne
  | cons x xs =>
    have hd := dtoi_uitoa a rest ha hs
    rw [hu] at hd
    simp only [List.cons_append] at hd
    have hle : ¬ a > 255 := by omega
    simp only [List.cons_append, parseOctet, if_true, hd, Bool.not_true, Bool.false_eq_true,
      hle, or_self, if_false, List.length_cons]
    simp

theorem parseOctet_next (a : Nat) (rest : Str) (ha : a < 256) (hs : stopsNumber rest) :
    parseOctet false ('.' :: (uitoa a ++ rest)) = some (a, rest) := by
  have hd := dtoi_uitoa a rest ha hs
  have hle : ¬ a > 255 := by omega
  simp only [parseOctet, Bool.false_eq_true, if_false, ne_eq, not_true_eq_false, hd,
    Bool.not_true, hle, or_self]
  simp

/-- `parseIPv4` reads back the dotted text of four octets. -/
theorem parseIPv4_dotted (a b c d : Nat) (ha : a < 256) (hb : b < 256) (hc : c < 256)
    (hd : d < 256) : parseIPv4 (dotted a b c d) = some (IPv4 a b c d) := by
  have hdot : ∀ t, stopsNumber ('.' :: t) := fun _ => not_isDigit_dot
  have h4 : parseOctet false ('.' :: uitoa d) = some (d, []) := by
    have := parseOctet_next d [] hd trivial
    simpa using this
  simp only [parseIPv4, dotted, parseOctet_first a _ ha (hdot _), parseOctet_next b _ hb (hdot _),
    parseOctet_next c _ hc (hdot _), h4]
  simp

theorem ParseIPFrom_digits (nt : NetText) (whole ds rest : Str) (h : ∀ c ∈ ds, isDigit c) :
    ParseIPFrom nt whole (ds ++ '.' :: rest) = parseIPv4 whole := by
  induction ds with
  | nil => simp [ParseIPFrom]
  | cons x xs ih =>
    have hx : isDigit x := h x (List.mem_cons_self x xs)
    have h1 : x ≠ '.' := by
      rintro rfl
      exact not_isDigit_dot hx
    have h2 : x ≠ ':' := by
      rintro rfl
      revert hx
      unfold isDigit
      decide
    simp only [List.cons_append, ParseIPFrom, h1, h2, if_false]
    exact ih (fun c hc => h c (List.mem_cons_of_mem x hc))

/-- `ParseIP` reads back the dotted text of four octets, in the 16-byte form. -/
theorem ParseIP_dotted (nt : NetText) (a b c d : Nat) (ha : a < 256) (hb : b < 256)
    (hc : c < 256) (hd : d < 256) : ParseIP nt (dotted a b c d) = some (IPv4 a b c d) := by
  unfold ParseIP
  have := ParseIPFrom_digits nt (dotted a b c d) (uitoa a)
    (uitoa b ++ '.' :: (uitoa c ++ '.' :: uitoa d)) (uitoa_digits a ha)
  rw [← parseIPv4_dotted a b c d ha hb hc hd]
  exact this

theorem splitSlash_append (s m : Str) (h : '/' ∉ s) :
    splitSlash (s ++ '/' :: m) = some (s, m) := by
  induction s with
  | nil => simp [splitSlash]
  | cons x xs ih =>
    have hx : x ≠ '/' := fun e => h (by simp [e])
    have hxs : '/' ∉ xs := fun e => h (List.mem_cons_of_mem x e)
    simp [splitSlash, hx, ih hxs]

theorem slash_not_mem_dotted (a b c d : Nat) (ha : a < 256) (hb : b < 256) (hc : c < 256)
    (hd : d < 256) : '/' ∉ dotted a b c d := by
  have hnd : ¬ isDigit '/' := by
    unfold isDigit
    decide
  have hu : ∀ n, n < 256 → '/' ∉ uitoa n := fun n hn hm => hnd (uitoa_digits n hn _ hm)
  simp [dotted, hu a ha, hu b hb, hu c hc, hu d hd]

theorem IP_String_IPv4 (nt : NetText) (a b c d : Nat) :
    IP.String nt (IPv4 a b c d) = dotted a b c d := by
  simp [IP.String, IPv4, v4InV6Prefix, To4, isZeros, dotted]

theorem IP_String_four (nt : NetText) (a b c d : Nat) :
    IP.String nt [a, b, c, d] = dotted a b c d := by
  simp [IP.String, To4, dotted]

theorem CIDRMask_length : ∀ p, p < 33 → (CIDRMask p 32).length = 4 := by
  decide

theorem simpleMaskLength_CIDRMask : ∀ p, p < 33 → simpleMaskLength (CIDRMask p 32) = some p := by
  decide

/-- The text of an IPv4 network with a `/p` mask. -/
theorem IPNet_String_four (nt : NetText) (a b c d p : Nat) (hp : p ≤ 32) :
    IPNet.String nt ⟨[a, b, c, d], CIDRMask p 32⟩ = cidrText a b c d p := by
  have hl := CIDRMask_length p (by omega)
  have hm := simpleMaskLength_CIDRMask p (by omega)
  simp [IPNet.String, networkNumberAndMask, To4, hl, hm, IP_String_four, cidrText]

/-- The text of an IPv4 address in 16-byte form with a `/p` mask. -/
theorem IPNet_String_IPv4 (nt : NetText) (a b c d p : Nat) (hp : p ≤ 32) :
    IPNet.String nt ⟨IPv4 a b c d, CIDRMask p 32⟩ = cidrText a b c d p := by
  have hl := CIDRMask_length p (by omega)
  have hm := simpleMaskLength_CIDRMask p (by omega)
  have h4 : To4 (IPv4 a b c d) = [a, b, c, d] := by
    simp [IPv4, v4InV6Prefix, To4, isZeros]
  simp [IPNet.String, networkNumberAndMask, h4, hl, hm, IP_String_four, cidrText]

/-- `ParseCIDR` on the text `a.b.c.d/p`. -/
theorem ParseCIDR_cidrText (nt : NetText) (a b c d p : Nat) (ha : a < 256) (hb : b < 256)
    (hc : c < 256) (hd : d < 256) (hp : p ≤ 32) :
    ParseCIDR nt (cidrText a b c d p) =
      some (IPv4 a b c d, ⟨IP.Mask (IPv4 a b c d) (CIDRMask p 32), CIDRMask p 32⟩) := by
  have hsplit := splitSlash_append (dotted a b c d) (uitoa p)
    (slash_not_mem_dotted a b c d ha hb hc hd)
  have hdt : dtoi (uitoa p) = (p, (uitoa p).length, true) := by
    have := dtoi_uitoa p [] (by omega) trivial
    simpa using this
  have hle : ¬ p > 32 := by omega
  simp only [ParseCIDR, cidrText, hsplit, parseIPv4_dotted a b c d ha hb hc hd, hdt]
  simp [hle]

/-! ## Masking is clearing the low bits -/

theorem CIDRMask_bytes : ∀ p, p < 33 →
    CIDRMask p 32 = [maskByte p, maskByte (p - 8), maskByte (p - 16), maskByte (p - 24)] := by
  decide

set_option maxRecDepth 100000 in
theorem and_maskByte : ∀ n, n < 9 → ∀ x, x < 256 →
    x &&& maskByte n = x / 2 ^ (8 - n) * 2 ^ (8 - n) := by
  decide

theorem IP_Mask_IPv4 (a b c d m0 m1 m2 m3 : Nat) :
    IP.Mask (IPv4 a b c d) [m0, m1, m2, m3] = [a &&& m0, b &&& m1, c &&& m2, d &&& m3] := by
  simp [IP.Mask, IPv4, v4InV6Prefix]

/-- Masking `a.b.c.d` with the `/p` mask clears the low `32 - p` bits. -/
theorem IP_Mask_CIDRMask (a b c d p : Nat) (ha : a < 256) (hb : b < 256) (hc : c < 256)
    (hd : d < 256) (hp : p ≤ 32) :
    IP.Mask (IPv4 a b c d) (CIDRMask p 32) = octets (clearLowBits (addrValue a b c d) p) := by
  rw [CIDRMask_bytes p (by omega), IP_Mask_IPv4]
  have h8 : ∀ n, 8 ≤ n → maskByte n = maskByte 8 := by
    intro n hn
    simp [maskByte, hn]
  have hand : ∀ n x, x < 256 → x &&& maskByte n = x / 2 ^ (8 - min n 8) * 2 ^ (8 - min n 8) := by
    intro n x hx
    by_cases hn : n < 9
    · rw [and_maskByte n hn x hx, Nat.min_eq_left (by omega)]
    · rw [h8 n (by omega), and_maskByte 8 (by omega) x hx, Nat.min_eq_right (by omega)]
  rw [hand p a ha, hand (p - 8) b hb, hand (p - 16) c hc, hand (p - 24) d hd]
  simp only [octets, clearLowBits, addrValue]
  interval_cases p <;> simp <;> omega

/-! ## One round on an artifact whose address parses -/

theorem FindAllStringSubmatch_head (name : Str) (h : FindAllStringSubmatch name ≠ []) :
    ∃ full cap more, FindAllStringSubmatch name = [full, cap] :: more := by
  simp only [FindAllStringSubmatch, findAllFrom] at h ⊢
  split
  · rename_i hf
    simp [hf] at h
  · exact ⟨_, _, _, rfl⟩

/-- The round for a matching, readable artifact whose first assigned address
has the text `a.b.c.d/p`: the boundary function is asked about the network of
the address, and its answer decides between a skip and the reservation. -/
theorem iteration_ipv4 {σ : Type} (lib : Lib) (w : World) (st : Store σ) (s : σ)
    (name contents : Str) (res : Result) (ipc : IPConfig) (rest : List (Option IPConfig))
    (a b c d p : Nat)
    (hmatch : FindAllStringSubmatch name ≠ [])
    (hread : w.ReadFile (w.resultsDir ++ '/' :: name) = .ok contents)
    (hdec : lib.Unmarshal contents = .ok res)
    (hips : res.IPs = some ipc :: rest)
    (haddr : IPNet.String lib.net ipc.Address = cidrText a b c d p)
    (ha : a < 256) (hb : b < 256) (hc : c < 256) (hd : d < 256) (hp : p ≤ 32) :
    iteration lib w st s name =
      match lib.GetIPRange (v4InV6Prefix ++ networkBase a b c d p) (networkOf a b c d p) with
      | .error _ =>
        ⟨[.readFile (w.resultsDir ++ '/' :: name),
          .getIPRange (v4InV6Prefix ++ networkBase a b c d p) (networkOf a b c d p)], s, false⟩
      | .ok (firstIP, lastIP) =>
        ⟨[.readFile (w.resultsDir ++ '/' :: name),
          .getIPRange (v4InV6Prefix ++ networkBase a b c d p) (networkOf a b c d p),
          .ipManagement .Reserve (requestFor a b c d p firstIP lastIP w.kubeconfig)
            (((FindAllStringSubmatch name).headD []).getD 1 [])],
         (st.IPManagement s .Reserve (requestFor a b c d p firstIP lastIP w.kubeconfig)
            (((FindAllStringSubmatch name).headD []).getD 1 [])).1, false⟩ := by
  obtain ⟨full, cap, more, hsub⟩ := FindAllStringSubmatch_head name hmatch
  have hmask := IP_Mask_CIDRMask a b c d p ha hb hc hd hp
  have hparse := ParseCIDR_cidrText lib.net a b c d p ha hb hc hd hp
  rw [hmask] at hparse
  have hbase : IP.String lib.net (octets (clearLowBits (addrValue a b c d) p)) =
      dotted (clearLowBits (addrValue a b c d) p / 2 ^ 24 % 256)
        (clearLowBits (addrValue a b c d) p / 2 ^ 16 % 256)
        (clearLowBits (addrValue a b c d) p / 2 ^ 8 % 256)
        (clearLowBits (addrValue a b c d) p % 256) := IP_String_four _ _ _ _ _
  have hback := ParseIP_dotted lib.net (clearLowBits (addrValue a b c d) p / 2 ^ 24 % 256)
        (clearLowBits (addrValue a b c d) p / 2 ^ 16 % 256)
        (clearLowBits (addrValue a b c d) p / 2 ^ 8 % 256)
        (clearLowBits (addrValue a b c d) p % 256)
        (Nat.mod_lt _ (by omega)) (Nat.mod_lt _ (by omega)) (Nat.mod_lt _ (by omega))
        (Nat.mod_lt _ (by omega))
  have hrange : IPNet.String lib.net ⟨octets (clearLowBits (addrValue a b c d) p), CIDRMask p 32⟩
      = rangeText a b c d p := IPNet_String_four _ _ _ _ _ _ hp
  have hnet : (IPv4 (clearLowBits (addrValue a b c d) p / 2 ^ 24 % 256)
        (clearLowBits (addrValue a b c d) p / 2 ^ 16 % 256)
        (clearLowBits (addrValue a b c d) p / 2 ^ 8 % 256)
        (clearLowBits (addrValue a b c d) p % 256))
      = v4InV6Prefix ++ octets (clearLowBits (addrValue a b c d) p) := rfl
  simp only [iteration, hsub, hread, hdec, hips, haddr, hparse, hbase, hback, hrange, hnet,
    Option.getD_some, networkBase, networkOf, requestFor, IP_String_IPv4]
  simp only [List.length_cons, List.length_nil, List.headD_cons]
  simp only [Nat.reduceAdd, Nat.succ_ne_zero, Nat.lt_irrefl, or_self, if_false]

/-- C6: when the first assigned address of a matching, readable artifact has
the text `a.b.c.d/p` (octets below 256, `p ≤ 32`), the round calls the
boundary function once, with the base address `a.b.c.d` with its low `32 - p`
bits cleared and with the network of that base and the `/p` mask; every request
the round issues has as `Range` the CIDR text of that base followed by `/p`,
and as `RangeStart` and `RangeEnd` the pair the boundary function returned;
and the round does issue the request when the boundary function returns a pair. -/
theorem C6_range_reconstruction {σ : Type} (lib : Lib) (w : World) (st : Store σ) (s : σ)
    (name contents : Str) (res : Result) (ipc : IPConfig) (rest : List (Option IPConfig))
    (a b c d p : Nat)
    (hmatch : FindAllStringSubmatch name ≠ [])
    (hread : w.ReadFile (w.resultsDir ++ '/' :: name) = .ok contents)
    (hdec : lib.Unmarshal contents = .ok res)
    (hips : res.IPs = some ipc :: rest)
    (haddr : IPNet.String lib.net ipc.Address = cidrText a b c d p)
    (ha : a < 256) (hb : b < 256) (hc : c < 256) (hd : d < 256) (hp : p ≤ 32) :
    bounds (iteration lib w st s name).events =
        [(v4InV6Prefix ++ octets (clearLowBits (addrValue a b c d) p),
          { IP := octets (clearLowBits (addrValue a b c d) p), Mask := CIDRMask p 32 })] ∧
    (∀ call ∈ calls (iteration lib w st s name).events,
        call.2.1.Range = rangeText a b c d p ∧
        lib.GetIPRange (v4InV6Prefix ++ octets (clearLowBits (addrValue a b c d) p))
            { IP := octets (clearLowBits (addrValue a b c d) p), Mask := CIDRMask p 32 }
          = .ok (call.2.1.RangeStart, call.2.1.RangeEnd)) ∧
    (∀ firstIP lastIP,
        lib.GetIPRange (v4InV6Prefix ++ octets (clearLowBits (addrValue a b c d) p))
            { IP := octets (clearLowBits (addrValue a b c d) p), Mask := CIDRMask p 32 }
          = .ok (firstIP, lastIP) →
        ∃ cfg owner, calls (iteration lib w st s name).events = [(.Reserve, cfg, owner)] ∧
          cfg.Range = rangeText a b c d p ∧ cfg.RangeStart = firstIP ∧ cfg.RangeEnd = lastIP) := by
  have hit := iteration_ipv4 lib w st s name contents res ipc rest a b c d p hmatch hread hdec
    hips haddr ha hb hc hd hp
  simp only [networkBase, networkOf] at hit
  rw [hit]
  refine ⟨?_, ?_, ?_⟩
  · split <;> simp [bounds]
  · intro call hcall
    split at hcall
    · simp [calls] at hcall
    · rename_i firstIP lastIP hr
      simp only [calls, List.mem_singleton] at hcall
      subst hcall
      exact ⟨rfl, hr⟩
  · intro firstIP lastIP hr
    rw [hr]
    exact ⟨_, _, rfl, rfl, rfl, rfl⟩

/-- The loop over names without match makes no call and ends normally. -/
theorem loop_no_match {σ : Type} (lib : Lib) (w : World) (st : Store σ) (files : List Str)
    (h : ∀ n ∈ files, FindAllStringSubmatch n = []) (s : σ) :
    loop lib w st s files = ⟨[], s, .ok⟩ := by
  induction files generalizing s with
  | nil => rfl
  | cons f fs ih =>
    obtain ⟨he, hp, hs⟩ := iteration_no_match lib w st s f (h f (List.mem_cons_self f fs))
    simp only [loop, hp, he, hs, Bool.false_eq_true, if_false,
      ih (fun n hn => h n (List.mem_cons_of_mem f hn)) s]
    rfl

/-- The round for a matching, readable artifact whose first assigned address
parses: the boundary function is asked about the parsed network, and its
answer decides between a skip and the reservation. -/
theorem iteration_parsed {σ : Type} (lib : Lib) (w : World) (st : Store σ) (s : σ)
    (name contents : Str) (res : Result) (ipc : IPConfig) (rest : List (Option IPConfig))
    (reserveIP : IP) (reserveCIDR : IPNet)
    (hmatch : FindAllStringSubmatch name ≠ [])
    (hread : w.ReadFile (w.resultsDir ++ '/' :: name) = .ok contents)
    (hdec : lib.Unmarshal contents = .ok res)
    (hips : res.IPs = some ipc :: rest)
    (hparse : ParseCIDR lib.net (IPNet.String lib.net ipc.Address)
      = some (reserveIP, reserveCIDR)) :
    iteration lib w st s name =
      match lib.GetIPRange ((ParseIP lib.net (IP.String lib.net reserveCIDR.IP)).getD [])
          reserveCIDR with
      | .error _ =>
        ⟨[.readFile (w.resultsDir ++ '/' :: name),
          .getIPRange ((ParseIP lib.net (IP.String lib.net reserveCIDR.IP)).getD [])
            reserveCIDR], s, false⟩
      | .ok (firstIP, lastIP) =>
        ⟨[.readFile (w.resultsDir ++ '/' :: name),
          .getIPRange ((ParseIP lib.net (IP.String lib.net reserveCIDR.IP)).getD []) reserveCIDR,
          .ipManagement .Reserve
            { Range := IPNet.String lib.net reserveCIDR
              RangeStart := firstIP
              RangeEnd := lastIP
              Addresses := [{ AddressStr := IP.String lib.net reserveIP
                              Address := { IP := reserveIP, Mask := reserveCIDR.Mask } }]
              Datastore := .Kubernetes
              Kubernetes := { KubeConfigPath := w.kubeconfig } }
            (((FindAllStringSubmatch name).headD []).getD 1 [])],
         (st.IPManagement s .Reserve
            { Range := IPNet.String lib.net reserveCIDR
              RangeStart := firstIP
              RangeEnd := lastIP
              Addresses := [{ AddressStr := IP.String lib.net reserveIP
                              Address := { IP := reserveIP, Mask := reserveCIDR.Mask } }]
              Datastore := .Kubernetes
              Kubernetes := { KubeConfigPath := w.kubeconfig } }
            (((FindAllStringSubmatch name).headD []).getD 1 [])).1, false⟩ := by
  obtain ⟨full, cap, more, hsub⟩ := FindAllStringSubmatch_head name hmatch
  simp only [iteration, hsub, hread, hdec, hips, hparse]
  simp only [List.length_cons, List.length_nil, List.headD_cons]
  simp only [Nat.reduceAdd, Nat.succ_ne_zero, Nat.lt_irrefl, or_self, if_false]

/-- C7: a directory whose only matching entry is a readable artifact whose
first assigned address parses to the host address `reserveIP` in the network
`reserveCIDR`, and for which the boundary function returns a pair, gets exactly
one reservation call, whatever the store answers: action `Reserve`, owner the
identifier captured from the file name, datastore Kubernetes, the range of the
network with the returned bounds, and one address entry made of the text of
the host address and of the host address with the network's mask; the run ends
with status 0.  When the address has the text `a.b.c.d/p`, the host address is
`a.b.c.d`, its text is `a.b.c.d`, the mask is the `/p` mask and the range text
is that of `a.b.c.d` with its low `32 - p` bits cleared. -/
theorem C7_single_artifact_single_reservation {σ : Type} (lib : Lib) (w : World) (st : Store σ)
    (s : σ) (pre post : List Str) (name contents : Str) (res : Result) (ipc : IPConfig)
    (rest : List (Option IPConfig)) (reserveIP : IP) (reserveCIDR : IPNet) (firstIP lastIP : IP)
    (hothers : ∀ n ∈ pre ++ post, FindAllStringSubmatch n = [])
    (hmatch : FindAllStringSubmatch name ≠ [])
    (hread : w.ReadFile (w.resultsDir ++ '/' :: name) = .ok contents)
    (hdec : lib.Unmarshal contents = .ok res)
    (hips : res.IPs = some ipc :: rest)
    (hparse : ParseCIDR lib.net (IPNet.String lib.net ipc.Address)
      = some (reserveIP, reserveCIDR))
    (hbounds : lib.GetIPRange ((ParseIP lib.net (IP.String lib.net reserveCIDR.IP)).getD [])
      reserveCIDR = .ok (firstIP, lastIP)) :
    calls (main lib (w.withListing (pre ++ name :: post)) st s).events =
      [(Action.Reserve,
        { Range := IPNet.String lib.net reserveCIDR
          RangeStart := firstIP
          RangeEnd := lastIP
          Addresses := [{ AddressStr := IP.String lib.net reserveIP
                          Address := { IP := reserveIP, Mask := reserveCIDR.Mask } }]
          Datastore := Datastore.Kubernetes
          Kubernetes := { KubeConfigPath := w.kubeconfig } },
        ((FindAllStringSubmatch name).headD []).getD 1 [])] ∧
    (main lib (w.withListing (pre ++ name :: post)) st s).exit = .ok ∧
    ∀ a b c d p : Nat, a < 256 → b < 256 → c < 256 → d < 256 → p ≤ 32 →
      IPNet.String lib.net ipc.Address = cidrText a b c d p →
      reserveIP = IPv4 a b c d ∧ IP.String lib.net reserveIP = dotted a b c d ∧
        reserveCIDR.Mask = CIDRMask p 32 ∧
        IPNet.String lib.net reserveCIDR = rangeText a b c d p := by
  have hpre : ∀ n ∈ pre, FindAllStringSubmatch n = [] :=
    fun n hn => hothers n (List.mem_append_left post hn)
  have hpost : ∀ n ∈ post, FindAllStringSubmatch n = [] :=
    fun n hn => hothers n (List.mem_append_right pre hn)
  have hit := iteration_parsed lib w st s name contents res ipc rest reserveIP reserveCIDR
    hmatch hread hdec hips hparse
  rw [hbounds] at hit
  have hl := loop_append lib w st pre (name :: post) s (by rw [loop_no_match lib w st pre hpre s])
  rw [loop_no_match lib w st pre hpre s] at hl
  rw [main_withListing]
  obtain ⟨hev, hex⟩ := hl
  rw [hev, hex]
  refine ⟨?_, ?_, ?_⟩
  · simp only [loop, hit, loop_no_match lib w st post hpost, Bool.false_eq_true, if_false,
      List.nil_append, List.append_nil, calls]
  · simp only [loop, hit, loop_no_match lib w st post hpost, Bool.false_eq_true, if_false]
  · intro a b c d p ha hb hc hd hp haddr
    rw [haddr, ParseCIDR_cidrText lib.net a b c d p ha hb hc hd hp] at hparse
    simp only [Option.some.injEq, Prod.mk.injEq] at hparse
    obtain ⟨h1, h2⟩ := hparse
    subst h1
    subst h2
    refine ⟨rfl, IP_String_IPv4 _ _ _ _ _, rfl, ?_⟩
    rw [IP_Mask_CIDRMask a b c d p ha hb hc hd hp]
    exact IPNet_String_four _ _ _ _ _ _ hp

/-! ## The theorems at sample inputs -/

theorem roundSafe_of_roundSafeB (lib : Lib) (w : World) (name : Str)
    (h : roundSafeB lib w name = true) : roundSafe lib w name := by
  intro hne contents res hread hdec
  simp only [roundSafeB, hne, if_false, hread, hdec] at h
  split at h
  · exact ⟨_, _, by assumption⟩
  · simp at h

/-- Containment at a directory with a stray file, a file that is not JSON and
two well-formed artifacts, over a store that rejects every call. -/
theorem containment_first_ip_present_sample :
    calls (main sampleLib
      (mixedDir.withListing
        (["notes.txt".toList, "sriov-public-net-bad000-net1".toList,
          "sriov-public-net-aaa111-net2".toList] ++ ["sriov-public-net-abc123-net1".toList]))
      failingStore 0).events
      = [sampleRequest "aaa111".toList, sampleRequest "abc123".toList] :=
  (containment_first_ip_present sampleLib mixedDir failingStore 0
    ["notes.txt".toList, "sriov-public-net-bad000-net1".toList,
      "sriov-public-net-aaa111-net2".toList]
    ["sriov-public-net-abc123-net1".toList]
    (fun name hn => roundSafe_of_roundSafeB sampleLib mixedDir name (by
      simp only [List.mem_append, List.mem_cons, List.mem_singleton, List.not_mem_nil,
        or_false] at hn
      rcases hn with (rfl | rfl | rfl) | rfl <;> decide))).1.trans (by decide)

/-- C5 at the name `sriov-public-nd-sjc6o-02-net-b5679ae7dd82-net1`. -/
theorem C5_identifier_extracted_witness :
    FindAllStringSubmatch "sriov-public-nd-sjc6o-02-net-b5679ae7dd82-net1".toList
      = [["sriov-public-nd-sjc6o-02-net-b5679ae7dd82-net1".toList, "b5679ae7dd82".toList]] :=
  (C5_identifier_extracted "-nd-sjc6o-02".toList "b5679ae7dd82".toList '1' (by
    unfold ArtifactForm
    decide)).1

/-- C6 at the address `24.51.17.125/29`: the range is `24.51.17.120/29`. -/
theorem C6_range_reconstruction_witness :
    rangeText 24 51 17 125 29 = "24.51.17.120/29".toList ∧
    bounds (iteration sampleLib mixedDir countingStore 0
        "sriov-public-net-abc123-net1".toList).events
      = [(IPv4 24 51 17 120, { IP := [24, 51, 17, 120], Mask := [255, 255, 255, 248] })] ∧
    ∀ call ∈ calls (iteration sampleLib mixedDir countingStore 0
        "sriov-public-net-abc123-net1".toList).events,
      call.2.1.Range = "24.51.17.120/29".toList :=
  have h := C6_range_reconstruction sampleLib mixedDir countingStore 0
    "sriov-public-net-abc123-net1".toList goodJSON
    { CNIVersion := "0.4.0".toList
      IPs := [some { Version := "4".toList
                     Address := { IP := IPv4 24 51 17 125, Mask := CIDRMask 29 32 }
                     Gateway := IPv4 24 51 17 121 }] }
    { Version := "4".toList
      Address := { IP := IPv4 24 51 17 125, Mask := CIDRMask 29 32 }
      Gateway := IPv4 24 51 17 121 }
    [] 24 51 17 125 29 (by decide) rfl rfl rfl (by decide) (by decide) (by decide) (by decide)
    (by decide) (by decide)
  ⟨by decide, h.1.trans (by decide), fun call hc => (h.2.1 call hc).1.trans (by decide)⟩

/-- C7 at a directory whose only matching entry is the artifact `abc123` with
address `24.51.17.125/29`, over a store that rejects every call. -/
theorem C7_single_artifact_single_reservation_witness :
    calls (main sampleLib
      (mixedDir.withListing (["notes.txt".toList] ++
        "sriov-public-net-abc123-net1".toList :: ["sriov-private-net-abc123-net1".toList]))
      failingStore 0).events = [sampleRequest "abc123".toList] :=
  (C7_single_artifact_single_reservation sampleLib mixedDir failingStore 0
    ["notes.txt".toList] ["sriov-private-net-abc123-net1".toList]
    "sriov-public-net-abc123-net1".toList goodJSON
    { CNIVersion := "0.4.0".toList
      IPs := [some { Version := "4".toList
                     Address := { IP := IPv4 24 51 17 125, Mask := CIDRMask 29 32 }
                     Gateway := IPv4 24 51 17 121 }] }
    { Version := "4".toList
      Address := { IP := IPv4 24 51 17 125, Mask := CIDRMask 29 32 }
      Gateway := IPv4 24 51 17 121 }
    [] (IPv4 24 51 17 125) { IP := [24, 51, 17, 120], Mask := [255, 255, 255, 248] }
    (IPv4 24 51 17 120) (IPv4 24 51 17 120)
    (by decide) (by decide) rfl rfl rfl (by decide) rfl).1.trans (by decide)

/-- C10 at the request issued for the artifact `abc123`. -/
theorem C10_reserved_address_lies_in_range_witness :
    ∃ (e : Address) (n : IPNet),
      (sampleRequest "abc123".toList).2.1.Addresses = [e] ∧
      (sampleRequest "abc123".toList).2.1.Range = IPNet.String sampleLib.net n ∧
      e.Address.Mask = n.Mask ∧
      IP.Mask e.Address.IP e.Address.Mask = n.IP ∧
      ((ParseIP sampleLib.net (IP.String sampleLib.net n.IP)).getD [], n)
        ∈ bounds (main sampleLib mixedDir countingStore 0).events :=
  C10_reserved_address_lies_in_range sampleLib mixedDir countingStore 0
    (sampleRequest "abc123".toList) (by decide)

end Migrate
